import Mathlib

/-!
Verification of the reconciliation core of a Tally → Zoho Books migration tool.

The definitions below are shallow embeddings of the Python source:
  * `build_group_hierarchy`, `get_all_descendants`   — ledgers/ledgers_backend.py
  * `get_all_descendants_j`                          — journel/journel_backend.py
  * `analyze_ledgers`                                — ledgers/ledgers_backend.py
  * `api_call`                                       — modules/zoho_connector.py
  * `find_or_create_contact`                         — bills/bills_backend.py, invoice/invoice.py
  * `find_customer_in_zoho`, `sale_customer_decision`— sales_order/sale_backend.py
  * `sync_ledgers_to_zoho`                           — ledgers/ledgers_backend.py

Python's unbounded recursion is embedded with an explicit fuel parameter;
a stability theorem shows that beyond a computable bound the fuel is
irrelevant, which is the formal content of termination.  Mutable state
(the SQLite database, the connector's token, the contact directory) is
passed explicitly and returned, so side effects are visible in the types.
-/

namespace TallyZoho

/-! ## Group hierarchy resolver

`build_group_hierarchy(groups)` builds a `defaultdict(list)` mapping a
parent name to the list of its children, in input order.  We embed the
dictionary as an association list with unique keys in first-appearance
order; `lookupC` is `children_map.get(name, [])`. -/

/-- A Tally group record: `{"name": ..., "parent": ...}`. -/
structure GroupRec where
  name : String
  parent : String
deriving DecidableEq, Repr

/-- The children map: association list from parent name to children names. -/
abbrev CMap := List (String × List String)

/-- `children_map.get(g, [])`. -/
def lookupC (g : String) (m : CMap) : List String :=
  match m.lookup g with
  | some l => l
  | none => []

/-- `children_map[parent].append(name)` on a `defaultdict(list)`. -/
def addEdge (m : CMap) (parent child : String) : CMap :=
  match m with
  | [] => [(parent, [child])]
  | (k, v) :: rest =>
    if k = parent then (k, v ++ [child]) :: rest
    else (k, v) :: addEdge rest parent child

/-- `build_group_hierarchy(groups)` from ledgers_backend.py. -/
def build_group_hierarchy (groups : List GroupRec) : CMap :=
  groups.foldl (fun m g => addEdge m g.parent g.name) []

/-- All names occurring in a children map (keys and values); the traversal
below can only ever visit these names plus the initial root. -/
def allNames (m : CMap) : List String :=
  m.foldr (fun p acc => p.1 :: p.2 ++ acc) []

/-- Number of names not yet visited: the measure that shrinks as the
traversal marks nodes visited. -/
def meas (m : CMap) (v : List String) : Nat :=
  ((allNames m).dedup.filter (fun x => decide (x ∉ v))).length

/-! `get_all_descendants(group_name, children_map, visited)` from
ledgers_backend.py.  The Python function threads one mutable `visited`
set through all recursive calls (the set object is shared between
sibling calls); we embed that by returning the updated visited list.
The recursion is embedded with a fuel parameter: fuel bounds the
recursion depth, and each level of depth adds one unvisited name to
`visited`, so `meas m [] + 1` fuel always suffices (proved below). -/

/-- One call of `get_all_descendants`: returns the collected descendant
list and the updated visited set (embedded as a list).  The `for child
in children` loop is the fold, which threads the shared visited set and
appends each child's descendants; the recursion is structural on the
fuel, so the kernel can evaluate the function on concrete inputs. -/
def gadFuel : Nat → String → CMap → List String → List String × List String
  | 0, _, _, v => ([], v)
  | n + 1, g, m, v =>
    if g ∈ v then ([], v)
    else
      let children := lookupC g m
      let folded := children.foldl
        (fun acc c => (acc.1 ++ (gadFuel n c m acc.2).1, (gadFuel n c m acc.2).2))
        ([], g :: v)
      (children ++ folded.1, folded.2)

/-- The child loop of `gadFuel` as a standalone recursion (used to
state and prove the traversal lemmas; `gadList_eq_foldl` links it to
the fold inside `gadFuel`). -/
def gadList (n : Nat) : List String → CMap → List String → List String × List String
  | [], _, v => ([], v)
  | c :: cs, m, v =>
    ((gadFuel n c m v).1 ++ (gadList n cs m (gadFuel n c m v).2).1,
     (gadList n cs m (gadFuel n c m v).2).2)

/-- `get_all_descendants(group_name, children_map)` (ledgers_backend.py),
run with provably sufficient fuel. -/
def get_all_descendants (g : String) (m : CMap) : List String :=
  (gadFuel (meas m [] + 1) g m []).1

/-- `get_all_descendants(group_name, visited)` from journel_backend.py.
Unlike the ledgers version it returns a Python `set` that CONTAINS the
root (`results = {group_name}`, then `results.update(...)` per child);
the set is embedded as a `Finset String`, the child loop as the fold. -/
def gadJ : Nat → String → CMap → List String → Finset String × List String
  | 0, _, _, v => (∅, v)
  | n + 1, g, m, v =>
    if g ∈ v then (∅, v)
    else
      (lookupC g m).foldl
        (fun acc c => (acc.1 ∪ (gadJ n c m acc.2).1, (gadJ n c m acc.2).2))
        ({g}, g :: v)

/-- `get_all_descendants(group_name)` (journel_backend.py), run with
provably sufficient fuel. -/
def get_all_descendants_j (g : String) (m : CMap) : Finset String :=
  (gadJ (meas m [] + 1) g m []).1

/-! ### Unfolding equations for the traversal -/

theorem allNames_cons (k : String) (vs : List String) (rest : CMap) :
    allNames ((k, vs) :: rest) = k :: vs ++ allNames rest := rfl

theorem gadFuel_zero (g : String) (m : CMap) (v : List String) :
    gadFuel 0 g m v = ([], v) := rfl

/-- The fold inside `gadFuel` is `gadList` with the accumulated
descendants pulled out front. -/
theorem gadList_eq_foldl (n : Nat) (m : CMap) (cs : List String) :
    ∀ (a : List String) (v : List String),
      cs.foldl (fun acc c => (acc.1 ++ (gadFuel n c m acc.2).1, (gadFuel n c m acc.2).2)) (a, v) =
        (a ++ (gadList n cs m v).1, (gadList n cs m v).2) := by
  induction cs with
  | nil => intro a v; simp [gadList]
  | cons c cs ih =>
    intro a v
    rw [List.foldl_cons, ih]
    simp [gadList]

theorem gadFuel_succ (n : Nat) (g : String) (m : CMap) (v : List String) :
    gadFuel (n + 1) g m v =
      if g ∈ v then ([], v)
      else (lookupC g m ++ (gadList n (lookupC g m) m (g :: v)).1,
            (gadList n (lookupC g m) m (g :: v)).2) := by
  rw [gadFuel]
  by_cases hg : g ∈ v
  · simp [hg]
  · simp only [hg, if_false]
    rw [gadList_eq_foldl]
    simp

theorem gadList_nil (n : Nat) (m : CMap) (v : List String) :
    gadList n [] m v = ([], v) := rfl

theorem gadList_cons (n : Nat) (c : String) (cs : List String) (m : CMap) (v : List String) :
    gadList n (c :: cs) m v =
      ((gadFuel n c m v).1 ++ (gadList n cs m (gadFuel n c m v).2).1,
       (gadList n cs m (gadFuel n c m v).2).2) := rfl

theorem gadJ_zero (g : String) (m : CMap) (v : List String) :
    gadJ 0 g m v = (∅, v) := rfl

theorem gadJ_succ (n : Nat) (g : String) (m : CMap) (v : List String) :
    gadJ (n + 1) g m v =
      if g ∈ v then (∅, v)
      else (lookupC g m).foldl
        (fun acc c => (acc.1 ∪ (gadJ n c m acc.2).1, (gadJ n c m acc.2).2))
        ({g}, g :: v) := by
  rw [gadJ]

/-- The collected set only grows along the journel child loop. -/
theorem gadJ_foldl_fst_subset (n : Nat) (m : CMap) (cs : List String) :
    ∀ acc : Finset String × List String,
      acc.1 ⊆ (cs.foldl (fun acc c => (acc.1 ∪ (gadJ n c m acc.2).1, (gadJ n c m acc.2).2)) acc).1 := by
  induction cs with
  | nil => intro acc; exact Finset.Subset.refl _
  | cons c cs ih =>
    intro acc
    rw [List.foldl_cons]
    refine Finset.Subset.trans ?_ (ih (acc.1 ∪ (gadJ n c m acc.2).1, (gadJ n c m acc.2).2))
    exact Finset.subset_union_left

/-! ### Supporting lemmas for termination (fuel stability) -/

theorem lookup_mem_allNames (g : String) (m : CMap) (l : List String)
    (h : m.lookup g = some l) : g ∈ allNames m ∧ ∀ c ∈ l, c ∈ allNames m := by
  induction m with
  | nil => simp [List.lookup] at h
  | cons p rest ih =>
    obtain ⟨k, vs⟩ := p
    simp only [List.lookup] at h
    cases hbeq : (g == k) with
    | true =>
      simp only [hbeq] at h
      have hg : g = k := eq_of_beq hbeq
      injection h with h
      subst h
      subst hg
      rw [allNames_cons]
      exact ⟨List.mem_cons_self _ _,
        fun c hc => List.mem_cons_of_mem _ (List.mem_append_left _ hc)⟩
    | false =>
      simp only [hbeq] at h
      obtain ⟨h1, h2⟩ := ih h
      rw [allNames_cons]
      exact ⟨List.mem_cons_of_mem _ (List.mem_append_right _ h1),
        fun c hc => List.mem_cons_of_mem _ (List.mem_append_right _ (h2 c hc))⟩

theorem lookupC_subset_allNames (g : String) (m : CMap) :
    ∀ c ∈ lookupC g m, c ∈ allNames m := by
  intro c hc
  unfold lookupC at hc
  cases hm : m.lookup g with
  | none => rw [hm] at hc; simp at hc
  | some l =>
    rw [hm] at hc
    exact (lookup_mem_allNames g m l hm).2 c hc

theorem lookupC_eq_nil_of_not_mem (g : String) (m : CMap)
    (h : g ∉ allNames m) : lookupC g m = [] := by
  unfold lookupC
  cases hm : m.lookup g with
  | none => rfl
  | some l => exact absurd (lookup_mem_allNames g m l hm).1 h

/-- Helper: strict filter-length comparison from a distinguishing element. -/
theorem length_filter_lt_of_witness {α : Type} (l : List α) (p q : α → Bool)
    (h : ∀ x, p x = true → q x = true) (a : α) (hal : a ∈ l)
    (hpa : p a = false) (hqa : q a = true) :
    (l.filter p).length < (l.filter q).length := by
  induction l with
  | nil => simp at hal
  | cons x xs ih =>
    rcases List.mem_cons.mp hal with hax | hax
    · subst hax
      have hsub : (xs.filter p).length ≤ (xs.filter q).length :=
        List.Sublist.length_le (List.monotone_filter_right xs fun y hy => h y hy)
      rw [List.filter_cons_of_neg (by simp [hpa]), List.filter_cons_of_pos (by simp [hqa])]
      exact Nat.lt_succ_of_le hsub
    · have hih := ih hax
      cases hpx : p x with
      | false =>
        rw [List.filter_cons_of_neg (by simp [hpx])]
        cases hqx : q x with
        | false => rw [List.filter_cons_of_neg (by simp [hqx])]; exact hih
        | true =>
          rw [List.filter_cons_of_pos (by simp [hqx])]
          exact Nat.lt_succ_of_lt hih
      | true =>
        have hqx : q x = true := h x hpx
        rw [List.filter_cons_of_pos (by simp [hpx]), List.filter_cons_of_pos (by simp [hqx])]
        exact Nat.succ_lt_succ hih

theorem meas_le_of_subset (m : CMap) (v v' : List String) (h : v ⊆ v') :
    meas m v' ≤ meas m v := by
  unfold meas
  refine List.Sublist.length_le (List.monotone_filter_right _ ?_)
  intro x hx
  simp only [decide_eq_true_eq] at hx ⊢
  exact fun hv => hx (h hv)

theorem meas_lt_of_new (m : CMap) (g : String) (v : List String)
    (hg : g ∈ allNames m) (hv : g ∉ v) : meas m (g :: v) < meas m v := by
  unfold meas
  refine length_filter_lt_of_witness _ _ _ ?_ g (List.mem_dedup.mpr hg) ?_ ?_
  · intro x hx
    simp only [decide_eq_true_eq] at hx ⊢
    exact fun hm => hx (List.mem_cons_of_mem _ hm)
  · simp
  · simpa using hv

/-- Marking nodes visited is monotone: the traversal only ever extends
the shared visited set. -/
theorem gad_visited_subset (n : Nat) :
    (∀ g m v, v ⊆ (gadFuel n g m v).2) ∧
    (∀ cs m v, v ⊆ (gadList n cs m v).2) := by
  induction n with
  | zero =>
    constructor
    · intro g m v
      rw [gadFuel_zero]
      exact fun x hx => hx
    · intro cs
      induction cs with
      | nil =>
        intro m v
        rw [gadList_nil]
        exact fun x hx => hx
      | cons c cs ih =>
        intro m v
        rw [gadList_cons, gadFuel_zero]
        exact ih m v
  | succ n ih =>
    have hP : ∀ g m v, v ⊆ (gadFuel (n + 1) g m v).2 := by
      intro g m v
      rw [gadFuel_succ]
      by_cases hg : g ∈ v
      · simp [hg]
      · simp only [hg, if_false]
        intro x hx
        exact ih.2 (lookupC g m) m (g :: v) (List.mem_cons_of_mem _ hx)
    refine ⟨hP, ?_⟩
    intro cs
    induction cs with
    | nil => intro m v; simp [gadList_nil]
    | cons c cs ihcs =>
      intro m v
      rw [gadList_cons]
      intro x hx
      exact ihcs m _ (hP c m v hx)

/-- Adjacent-fuel stability: once the fuel exceeds the number of names
not yet visited, one more unit of fuel does not change the result.  This
is the formal content of "the recursion never loops": the traversal
needs only boundedly many levels of recursion. -/
theorem gad_fuel_stable (n : Nat) :
    (∀ g m v, meas m v < n → gadFuel n g m v = gadFuel (n + 1) g m v) ∧
    (∀ cs m v, (∀ c ∈ cs, c ∈ allNames m) → meas m v < n →
      gadList n cs m v = gadList (n + 1) cs m v) := by
  induction n with
  | zero =>
    constructor
    · intro g m v h; omega
    · intro cs m v _ h; omega
  | succ n ih =>
    have hP : ∀ g m v, meas m v < n + 1 →
        gadFuel (n + 1) g m v = gadFuel (n + 2) g m v := by
      intro g m v h
      rw [gadFuel_succ, gadFuel_succ]
      by_cases hg : g ∈ v
      · simp [hg]
      · simp only [hg, if_false]
        by_cases hga : g ∈ allNames m
        · have hmeas : meas m (g :: v) < n := by
            have h1 := meas_lt_of_new m g v hga hg
            omega
          rw [ih.2 (lookupC g m) m (g :: v) (lookupC_subset_allNames g m) hmeas]
        · rw [lookupC_eq_nil_of_not_mem g m hga, gadList_nil, gadList_nil]
    refine ⟨hP, ?_⟩
    intro cs
    induction cs with
    | nil => intro m v _ _; rw [gadList_nil, gadList_nil]
    | cons c cs ihcs =>
      intro m v hsub h
      rw [gadList_cons, gadList_cons]
      rw [← hP c m v h]
      have hv1 : meas m (gadFuel (n + 1) c m v).2 < n + 1 := by
        have := meas_le_of_subset m v (gadFuel (n + 1) c m v).2
          ((gad_visited_subset (n + 1)).1 c m v)
        omega
      rw [ihcs m (gadFuel (n + 1) c m v).2 (fun x hx => hsub x (List.mem_cons_of_mem _ hx)) hv1]

/-- Any fuel beyond the sufficient bound computes the same traversal. -/
theorem gadFuel_stable_ge (m : CMap) (g : String) (n : Nat)
    (h : meas m [] + 1 ≤ n) :
    gadFuel n g m [] = gadFuel (meas m [] + 1) g m [] := by
  induction n, h using Nat.le_induction with
  | base => rfl
  | succ n hn ihn =>
    rw [← (gad_fuel_stable n).1 g m [] (by omega)]
    exact ihn

/-! ### Reachability characterization of the journel traversal -/

/-- One parent→child edge of the children map. -/
def childStep (m : CMap) (a b : String) : Prop := b ∈ lookupC a m

/-- `x` is the root or a transitive descendant of `g`. -/
def Reaches (m : CMap) (g x : String) : Prop :=
  Relation.ReflTransGen (childStep m) g x

/-- The child loop of `gadJ`, named for the lemmas below. -/
def gadJFold (n : Nat) (m : CMap) (cs : List String) (acc : Finset String × List String) :
    Finset String × List String :=
  cs.foldl (fun acc c => (acc.1 ∪ (gadJ n c m acc.2).1, (gadJ n c m acc.2).2)) acc

theorem gadJ_succ_fold (n : Nat) (g : String) (m : CMap) (v : List String) :
    gadJ (n + 1) g m v =
      if g ∈ v then (∅, v) else gadJFold n m (lookupC g m) ({g}, g :: v) := by
  rw [gadJ]
  rfl

/-- `v'` extends `v` and every node first visited after `v` has all its
children visited by the end. -/
def ClosedFrom (m : CMap) (v v' : List String) : Prop :=
  v ⊆ v' ∧ ∀ a, a ∈ v' → a ∉ v → ∀ c ∈ lookupC a m, c ∈ v'

theorem closedFrom_refl (m : CMap) (v : List String) : ClosedFrom m v v :=
  ⟨fun _ hx => hx, fun _ _ ha _ _ => absurd ‹_› ha⟩

theorem closedFrom_trans (m : CMap) (v w w' : List String)
    (h1 : ClosedFrom m v w) (h2 : ClosedFrom m w w') : ClosedFrom m v w' := by
  refine ⟨fun x hx => h2.1 (h1.1 hx), ?_⟩
  intro a ha hav c hc
  by_cases haw : a ∈ w
  · exact h2.1 (h1.2 a haw hav c hc)
  · exact h2.2 a ha haw c hc

/-- The traversal's collected set is exactly the set of newly visited
nodes (the visited list grows by exactly what is collected). -/
theorem gadJ_fresh : ∀ (n : Nat),
    (∀ (g : String) (m : CMap) (v : List String),
      ∃ fresh : List String, (gadJ n g m v).2 = fresh ++ v ∧
        (gadJ n g m v).1 = fresh.toFinset) ∧
    (∀ (cs : List String) (m : CMap) (acc : Finset String × List String),
      ∃ fresh : List String, (gadJFold n m cs acc).2 = fresh ++ acc.2 ∧
        (gadJFold n m cs acc).1 = acc.1 ∪ fresh.toFinset) := by
  intro n
  induction n with
  | zero =>
    constructor
    · intro g m v
      exact ⟨[], rfl, rfl⟩
    · intro cs
      induction cs with
      | nil => intro m acc; exact ⟨[], rfl, by simp [gadJFold]⟩
      | cons c cs ih =>
        intro m acc
        obtain ⟨fresh, h2, h1⟩ := ih m (acc.1 ∪ (gadJ 0 c m acc.2).1, (gadJ 0 c m acc.2).2)
        refine ⟨fresh, ?_, ?_⟩
        · simpa [gadJFold, gadJ_zero] using h2
        · simp only [gadJFold, List.foldl_cons] at h1 ⊢
          rw [h1]
          simp [gadJ_zero]
  | succ n ihn =>
    have hA : ∀ (g : String) (m : CMap) (v : List String),
        ∃ fresh : List String, (gadJ (n + 1) g m v).2 = fresh ++ v ∧
          (gadJ (n + 1) g m v).1 = fresh.toFinset := by
      intro g m v
      rw [gadJ_succ_fold]
      by_cases hg : g ∈ v
      · exact ⟨[], by simp [hg], by simp [hg]⟩
      · simp only [hg, if_false]
        obtain ⟨fresh, h2, h1⟩ := ihn.2 (lookupC g m) m ({g}, g :: v)
        refine ⟨fresh ++ [g], ?_, ?_⟩
        · simpa using h2
        · rw [h1]
          simp only [List.toFinset_append, List.toFinset_cons, List.toFinset_nil]
          ext x
          simp [or_comm]
    refine ⟨hA, ?_⟩
    intro cs
    induction cs with
    | nil => intro m acc; exact ⟨[], rfl, by simp [gadJFold]⟩
    | cons c cs ih =>
      intro m acc
      obtain ⟨f1, hf1v, hf1r⟩ := hA c m acc.2
      obtain ⟨f2, hf2v, hf2r⟩ :=
        ih m (acc.1 ∪ (gadJ (n + 1) c m acc.2).1, (gadJ (n + 1) c m acc.2).2)
      refine ⟨f2 ++ f1, ?_, ?_⟩
      · simp only [gadJFold, List.foldl_cons] at hf2v ⊢
        rw [hf2v, hf1v]
        simp
      · simp only [gadJFold, List.foldl_cons] at hf2r ⊢
        rw [hf2r, hf1r]
        simp only [List.toFinset_append]
        ext x
        simp
        tauto

/-- Every node the journel traversal collects is reachable from the
call's root. -/
theorem gadJ_sound : ∀ (n : Nat),
    (∀ (g : String) (m : CMap) (v : List String) (x : String),
      x ∈ (gadJ n g m v).1 → Reaches m g x) ∧
    (∀ (cs : List String) (m : CMap) (acc : Finset String × List String) (x : String),
      x ∈ (gadJFold n m cs acc).1 → x ∈ acc.1 ∨ ∃ c ∈ cs, Reaches m c x) := by
  intro n
  induction n with
  | zero =>
    constructor
    · intro g m v x hx
      rw [gadJ_zero] at hx
      simp at hx
    · intro cs
      induction cs with
      | nil => intro m acc x hx; exact Or.inl hx
      | cons c cs ih =>
        intro m acc x hx
        simp only [gadJFold, List.foldl_cons] at hx
        rcases ih m _ x hx with hin | ⟨c', hc', hr⟩
        · rw [gadJ_zero] at hin
          simp only [Finset.union_assoc] at hin
          have hin' : x ∈ acc.1 := by simpa using hin
          exact Or.inl hin'
        · exact Or.inr ⟨c', List.mem_cons_of_mem _ hc', hr⟩
  | succ n ihn =>
    have hA : ∀ (g : String) (m : CMap) (v : List String) (x : String),
        x ∈ (gadJ (n + 1) g m v).1 → Reaches m g x := by
      intro g m v x hx
      rw [gadJ_succ_fold] at hx
      by_cases hg : g ∈ v
      · simp [hg] at hx
      · simp only [hg, if_false] at hx
        rcases ihn.2 (lookupC g m) m ({g}, g :: v) x hx with hin | ⟨c, hc, hr⟩
        · simp at hin
          subst hin
          exact Relation.ReflTransGen.refl
        · exact Relation.ReflTransGen.head hc hr
    refine ⟨hA, ?_⟩
    intro cs
    induction cs with
    | nil => intro m acc x hx; exact Or.inl hx
    | cons c cs ih =>
      intro m acc x hx
      simp only [gadJFold, List.foldl_cons] at hx
      rcases ih m _ x hx with hin | ⟨c', hc', hr⟩
      · rcases Finset.mem_union.mp hin with h | h
        · exact Or.inl h
        · exact Or.inr ⟨c, List.mem_cons_self _ _, hA c m acc.2 x h⟩
      · exact Or.inr ⟨c', List.mem_cons_of_mem _ hc', hr⟩

/-- With enough fuel, the visited set the traversal returns is closed:
every newly visited node has all of its children visited, and the root
was visited. -/
theorem gadJ_closed : ∀ (n : Nat),
    (∀ (g : String) (m : CMap) (v : List String), meas m v < n →
      ClosedFrom m v (gadJ n g m v).2 ∧ g ∈ (gadJ n g m v).2) ∧
    (∀ (cs : List String) (m : CMap) (acc : Finset String × List String),
      (∀ c ∈ cs, c ∈ allNames m) → meas m acc.2 < n →
      ClosedFrom m acc.2 (gadJFold n m cs acc).2 ∧
        ∀ c ∈ cs, c ∈ (gadJFold n m cs acc).2) := by
  intro n
  induction n with
  | zero =>
    constructor
    · intro g m v h; omega
    · intro cs m acc _ h; omega
  | succ n ihn =>
    have hA : ∀ (g : String) (m : CMap) (v : List String), meas m v < n + 1 →
        ClosedFrom m v (gadJ (n + 1) g m v).2 ∧ g ∈ (gadJ (n + 1) g m v).2 := by
      intro g m v h
      rw [gadJ_succ_fold]
      by_cases hg : g ∈ v
      · rw [if_pos hg]
        exact ⟨closedFrom_refl m v, hg⟩
      · simp only [hg, if_false]
        by_cases hga : g ∈ allNames m
        · have hmeas : meas m ((({g} : Finset String), g :: v) : Finset String × List String).2 < n := by
            have := meas_lt_of_new m g v hga hg
            simp only
            omega
          obtain ⟨hcl, hcs⟩ := ihn.2 (lookupC g m) m ({g}, g :: v)
            (lookupC_subset_allNames g m) hmeas
          have hsubgv : (g :: v) ⊆ (gadJFold n m (lookupC g m) ({g}, g :: v)).2 := hcl.1
          refine ⟨⟨fun x hx => hsubgv (List.mem_cons_of_mem _ hx), ?_⟩,
            hsubgv (List.mem_cons_self _ _)⟩
          intro a ha hav c hc
          by_cases hagv : a ∈ g :: v
          · have hag : a = g := by
              rcases List.mem_cons.mp hagv with h' | h'
              · exact h'
              · exact absurd h' hav
            subst hag
            exact hcs c hc
          · exact hcl.2 a ha hagv c hc
        · rw [lookupC_eq_nil_of_not_mem g m hga]
          refine ⟨⟨fun x hx => List.mem_cons_of_mem _ hx, ?_⟩, List.mem_cons_self _ _⟩
          intro a ha hav c hc
          have hag : a = g := by
            rcases List.mem_cons.mp ha with h' | h'
            · exact h'
            · exact absurd h' hav
          subst hag
          rw [lookupC_eq_nil_of_not_mem a m hga] at hc
          simp at hc
    refine ⟨hA, ?_⟩
    intro cs
    induction cs with
    | nil =>
      intro m acc _ _
      exact ⟨closedFrom_refl m acc.2, by simp⟩
    | cons c cs ih =>
      intro m acc hsub h
      obtain ⟨hcl1, hc1⟩ := hA c m acc.2 h
      have hmeas2 : meas m ((acc.1 ∪ (gadJ (n + 1) c m acc.2).1,
          (gadJ (n + 1) c m acc.2).2) : Finset String × List String).2 < n + 1 := by
        have := meas_le_of_subset m acc.2 (gadJ (n + 1) c m acc.2).2 hcl1.1
        simp only
        omega
      obtain ⟨hcl2, hcs2⟩ := ih m (acc.1 ∪ (gadJ (n + 1) c m acc.2).1,
        (gadJ (n + 1) c m acc.2).2) (fun x hx => hsub x (List.mem_cons_of_mem _ hx)) hmeas2
      have hfold : gadJFold (n + 1) m (c :: cs) acc =
          gadJFold (n + 1) m cs (acc.1 ∪ (gadJ (n + 1) c m acc.2).1,
            (gadJ (n + 1) c m acc.2).2) := by
        simp [gadJFold]
      rw [hfold]
      refine ⟨closedFrom_trans m acc.2 _ _ hcl1 hcl2, ?_⟩
      intro c' hc'
      rcases List.mem_cons.mp hc' with h' | h'
      · subst h'
        exact hcl2.1 hc1
      · exact hcs2 c' h'

/-- A closed visited set containing the root contains everything
reachable from the root. -/
theorem reaches_mem_of_closed (m : CMap) (V : List String) (g : String)
    (hcl : ClosedFrom m [] V) (hg : g ∈ V) :
    ∀ x, Reaches m g x → x ∈ V := by
  intro x hx
  induction hx with
  | refl => exact hg
  | tail hab hbc ih => exact hcl.2 _ ih (List.not_mem_nil _) _ hbc

/-- The journel `get_all_descendants` computes exactly the set of nodes
reachable from the root along parent→child edges. -/
theorem get_all_descendants_j_iff (m : CMap) (g x : String) :
    x ∈ get_all_descendants_j g m ↔ Reaches m g x := by
  constructor
  · exact (gadJ_sound (meas m [] + 1)).1 g m [] x
  · intro hreach
    obtain ⟨hcl, hg⟩ := (gadJ_closed (meas m [] + 1)).1 g m [] (by omega)
    have hx := reaches_mem_of_closed m _ g hcl hg x hreach
    obtain ⟨fresh, hv, hr⟩ := (gadJ_fresh (meas m [] + 1)).1 g m []
    unfold get_all_descendants_j
    rw [hr]
    rw [hv] at hx
    simpa using hx


/-! ### The ledgers traversal computes the same closure

The two variants share the guard-and-recurse structure: their visited
lists evolve identically, and the set `{root} ∪ ledgersResult` equals
the journel result, hence the reachable set. -/

/-- Both traversals update the shared visited set identically. -/
theorem gadFuel_visited_eq_gadJ : ∀ n : Nat,
    (∀ g m v, (gadFuel n g m v).2 = (gadJ n g m v).2) ∧
    (∀ cs m v (acc1 : Finset String),
      (gadList n cs m v).2 = (gadJFold n m cs (acc1, v)).2) := by
  intro n
  induction n with
  | zero =>
    constructor
    · intro g m v
      rw [gadFuel_zero, gadJ_zero]
    · intro cs
      induction cs with
      | nil => intro m v acc1; rfl
      | cons c cs ih =>
        intro m v acc1
        rw [gadList_cons, gadFuel_zero]
        simp only [gadJFold, List.foldl_cons, gadJ_zero]
        exact ih m v (acc1 ∪ ∅)
  | succ n ihn =>
    have hA : ∀ g m v, (gadFuel (n + 1) g m v).2 = (gadJ (n + 1) g m v).2 := by
      intro g m v
      rw [gadFuel_succ, gadJ_succ_fold]
      by_cases hg : g ∈ v
      · simp [hg]
      · simp only [hg, if_false]
        exact ihn.2 (lookupC g m) m (g :: v) {g}
    refine ⟨hA, ?_⟩
    intro cs
    induction cs with
    | nil => intro m v acc1; rfl
    | cons c cs ih =>
      intro m v acc1
      rw [gadList_cons]
      simp only [gadJFold, List.foldl_cons]
      rw [hA c m v]
      exact ih m (gadJ (n + 1) c m v).2 (acc1 ∪ (gadJ (n + 1) c m v).1)

set_option maxHeartbeats 1600000 in
/-- As sets, the ledgers traversal's result together with the root and
the prior visited nodes is exactly the returned visited set (with the
prior visited nodes). -/
theorem gadFuel_result_set : ∀ n : Nat,
    (∀ g m v, meas m v < n →
      (gadFuel n g m v).1.toFinset ∪ insert g v.toFinset =
        (gadFuel n g m v).2.toFinset ∪ v.toFinset) ∧
    (∀ cs m v, meas m v < n →
      (gadList n cs m v).1.toFinset ∪ cs.toFinset ∪ v.toFinset =
        (gadList n cs m v).2.toFinset ∪ v.toFinset) := by
  intro n
  induction n with
  | zero =>
    constructor
    · intro g m v h; omega
    · intro cs m v h; omega
  | succ n ihn =>
    have hA : ∀ g m v, meas m v < n + 1 →
        (gadFuel (n + 1) g m v).1.toFinset ∪ insert g v.toFinset =
          (gadFuel (n + 1) g m v).2.toFinset ∪ v.toFinset := by
      intro g m v h
      rw [gadFuel_succ]
      by_cases hg : g ∈ v
      · simp only [hg, if_true]
        ext x
        simp only [Finset.mem_union, Finset.mem_insert, List.mem_toFinset,
          List.toFinset_nil, Finset.not_mem_empty]
        have hgx : x = g → x ∈ v := fun hx => hx ▸ hg
        tauto
      · simp only [hg, if_false]
        by_cases hga : g ∈ allNames m
        · have hmeas : meas m (g :: v) < n := by
            have := meas_lt_of_new m g v hga hg
            omega
          have hq := ihn.2 (lookupC g m) m (g :: v) hmeas
          have hgv2 : g ∈ (gadList n (lookupC g m) m (g :: v)).2 :=
            (gad_visited_subset n).2 (lookupC g m) m (g :: v) (List.mem_cons_self _ _)
          ext x
          have hq' := congrArg (x ∈ ·) hq
          simp only [eq_iff_iff, Finset.mem_union, Finset.mem_insert, List.mem_toFinset,
            List.toFinset_cons, List.mem_append] at hq' ⊢
          have hgx : x = g → x ∈ (gadList n (lookupC g m) m (g :: v)).2 :=
            fun hx => hx ▸ hgv2
          tauto
        · rw [lookupC_eq_nil_of_not_mem g m hga, gadList_nil]
          ext x
          simp only [Finset.mem_union, Finset.mem_insert, List.mem_toFinset,
            List.toFinset_nil, Finset.not_mem_empty, List.toFinset_cons,
            List.mem_append, List.not_mem_nil, List.mem_cons]
          tauto
    refine ⟨hA, ?_⟩
    intro cs
    induction cs with
    | nil =>
      intro m v _
      rw [gadList_nil]
      ext x
      simp only [Finset.mem_union, List.mem_toFinset, List.toFinset_nil,
        Finset.not_mem_empty, List.not_mem_nil]
      tauto
    | cons c cs ih =>
      intro m v h
      rw [gadList_cons]
      have hp := hA c m v h
      have hsub1 : v ⊆ (gadFuel (n + 1) c m v).2 := (gad_visited_subset (n + 1)).1 c m v
      have hmeas1 : meas m (gadFuel (n + 1) c m v).2 < n + 1 := by
        have := meas_le_of_subset m v (gadFuel (n + 1) c m v).2 hsub1
        omega
      have hq := ih m (gadFuel (n + 1) c m v).2 hmeas1
      have hsub2 : (gadFuel (n + 1) c m v).2 ⊆
          (gadList (n + 1) cs m (gadFuel (n + 1) c m v).2).2 :=
        (gad_visited_subset (n + 1)).2 cs m (gadFuel (n + 1) c m v).2
      ext x
      have hp' := congrArg (x ∈ ·) hp
      have hq' := congrArg (x ∈ ·) hq
      simp only [eq_iff_iff, Finset.mem_union, Finset.mem_insert, List.mem_toFinset,
        List.toFinset_cons, List.toFinset_append, List.mem_append, List.mem_cons] at hp' hq' ⊢
      have hsub2' : x ∈ (gadFuel (n + 1) c m v).2 →
          x ∈ (gadList (n + 1) cs m (gadFuel (n + 1) c m v).2).2 := fun hx => hsub2 hx
      tauto

/-- `{root} ∪ ledgersResult = journelResult` — the two implementations
compute the same closure once the callers union the root back in. -/
theorem ledgers_closure_eq_journel (m : CMap) (g : String) :
    insert g (get_all_descendants g m).toFinset = get_all_descendants_j g m := by
  have hset := (gadFuel_result_set (meas m [] + 1)).1 g m [] (by omega)
  have hvis := (gadFuel_visited_eq_gadJ (meas m [] + 1)).1 g m []
  obtain ⟨fresh, hfv, hfr⟩ := (gadJ_fresh (meas m [] + 1)).1 g m []
  unfold get_all_descendants get_all_descendants_j
  rw [hfr]
  simp only [List.toFinset_nil, Finset.union_insert, Finset.union_empty] at hset
  rw [hset, hvis, hfv]
  simp

/-- Membership in the closure the ledgers callers build is exactly
reachability from the root. -/
theorem get_all_descendants_closure_iff (m : CMap) (g x : String) :
    x ∈ insert g (get_all_descendants g m).toFinset ↔ Reaches m g x := by
  rw [ledgers_closure_eq_journel]
  exact get_all_descendants_j_iff m g x

/-! ## Ledger classifier (`analyze_ledgers`, ledgers/ledgers_backend.py)

`analyze_ledgers(ledgers, groups)` builds the children map, computes the
closures of "Sundry Debtors" and "Sundry Creditors", tags every ledger
with a type (mutating the input dict: `ledger["type"] = ledger_type`),
buckets it, and — when the `database_manager` module imported
successfully — calls `init_db()` once and `insert_or_update_ledger`
per ledger.  The embedding makes those effects explicit: the returned
`AnalyzeResult` carries `dbInit` (whether `init_db` ran) and `dbLog`
(the sequence of rows passed to `insert_or_update_ledger`); the
availability of `database_manager` is the `hasDb` flag. -/

/-- A Tally ledger as parsed from the export: `"name"` and `"parent"`
are always present (the code indexes them directly); the remaining
attributes are read with `dict.get` and may be absent. -/
structure LedgerIn where
  name : String
  parent : String
  address : Option String := none
  state : Option String := none
  country : Option String := none
  pincode : Option String := none
  email : Option String := none
  phone : Option String := none
  gstin : Option String := none
  gst_reg_type : Option String := none
  pan : Option String := none
  opening_balance : Option Int := none
  closing_balance : Option Int := none
deriving DecidableEq, Repr

/-- A ledger after `analyze_ledgers` set `ledger["type"]`. -/
structure TypedLedger where
  led : LedgerIn
  ltype : String
deriving DecidableEq, Repr

/-- The `db_data` dict handed to `database_manager.insert_or_update_ledger`. -/
structure DbRow where
  name : String
  parent : String
  dtype : String
  address : String
  state : String
  country : String
  pincode : String
  email : String
  phone : String
  gstin : String
  gst_reg_type : String
  pan : String
  opening_balance : Int
  closing_balance : Int
deriving DecidableEq, Repr

/-- The value returned by `analyze_ledgers`, plus the explicit database
side-effect trace of the call. -/
structure AnalyzeResult where
  ledgers : List TypedLedger
  sundry_debtors : List TypedLedger
  sundry_creditors : List TypedLedger
  other_ledgers : List TypedLedger
  dbInit : Bool
  dbLog : List DbRow
deriving DecidableEq, Repr

/-- `sd = {"Sundry Debtors"}; sd.update(get_all_descendants(...))` —
the receivables closure used by the classifier (membership only). -/
def sdSet (groups : List GroupRec) : List String :=
  "Sundry Debtors" :: get_all_descendants "Sundry Debtors" (build_group_hierarchy groups)

/-- `sc = {"Sundry Creditors"}; sc.update(get_all_descendants(...))` —
the payables closure used by the classifier (membership only). -/
def scSet (groups : List GroupRec) : List String :=
  "Sundry Creditors" :: get_all_descendants "Sundry Creditors" (build_group_hierarchy groups)

/-- The role computed for one ledger: `if parent in sd ... elif parent in sc ... else`. -/
def roleOf (sd sc : List String) (parent : String) : String :=
  if parent ∈ sd then "customer" else if parent ∈ sc then "vendor" else "other"

/-- The `db_data` row built for one ledger (verbatim field defaults from
the source: `.get(..., "")` and `.get(..., 0) or 0`). -/
def toDbRow (l : LedgerIn) (t : String) : DbRow where
  name := l.name
  parent := l.parent
  dtype := t
  address := l.address.getD ""
  state := l.state.getD ""
  country := l.country.getD ""
  pincode := l.pincode.getD ""
  email := l.email.getD ""
  phone := l.phone.getD ""
  gstin := l.gstin.getD ""
  gst_reg_type := l.gst_reg_type.getD ""
  pan := l.pan.getD ""
  opening_balance := l.opening_balance.getD 0
  closing_balance := l.closing_balance.getD 0

/-- The `for ledger in ledgers` loop of `analyze_ledgers`: returns
(typed ledgers, debtors bucket, creditors bucket, other bucket, db rows
written), in input order. -/
def classifyLoop (sd sc : List String) (hasDb : Bool) :
    List LedgerIn →
      List TypedLedger × List TypedLedger × List TypedLedger × List TypedLedger × List DbRow
  | [] => ([], [], [], [], [])
  | l :: rest =>
    let t := roleOf sd sc l.parent
    let tl : TypedLedger := ⟨l, t⟩
    let (ls, ds, cs, os, log) := classifyLoop sd sc hasDb rest
    (tl :: ls,
     (if t = "customer" then tl :: ds else ds),
     (if t = "vendor" then tl :: cs else cs),
     (if t = "other" then tl :: os else os),
     (if hasDb then toDbRow l t :: log else log))

/-- `analyze_ledgers(ledgers, groups)` (ledgers/ledgers_backend.py).
`hasDb` is whether the `database_manager` import succeeded. -/
def analyze_ledgers (hasDb : Bool) (ledgers : List LedgerIn) (groups : List GroupRec) :
    AnalyzeResult :=
  let sd := sdSet groups
  let sc := scSet groups
  let (ls, ds, cs, os, log) := classifyLoop sd sc hasDb ledgers
  { ledgers := ls
    sundry_debtors := ds
    sundry_creditors := cs
    other_ledgers := os
    dbInit := hasDb
    dbLog := log }

/-! ## Resilient API client (`ZohoConnector.api_call`, modules/zoho_connector.py)

Constants from the source: `API_CALL_DELAY = 0.4`, `RATE_LIMIT_BACKOFF = 15`,
`MAX_RETRIES = 3`.  The embedding passes the connector's token state
explicitly (`ConnSt`): `accessToken` is the cached token (present means
not yet expired), and `tokenSupply` is the stream of fresh tokens the
OAuth refresh endpoint would hand out (empty supply means the refresh
fails, i.e. `get_access_token` returns `None`).  The transport is a
script `resp : Nat → TResp` giving, per attempt number, what the
`requests` call produced.  The returned trace records the explicit
backoff `time.sleep` durations (in seconds) and the token every attempt
sent; the time-based `_throttle` gap is outside the model, since every
claim concerns the backoff sleeps and retry counting. -/

def RATE_LIMIT_BACKOFF : Nat := 15

def MAX_RETRIES : Nat := 3

/-- The connector's mutable token state. -/
structure ConnSt where
  accessToken : Option String
  tokenSupply : List String
deriving DecidableEq, Repr

/-- What one transport interaction produced: HTTP 429, a parsed JSON
body (its `code` and `message` fields), a `requests` timeout, or any
other exception. -/
inductive TResp where
  | status429 : TResp
  | json : Int → String → TResp
  | timeout : TResp
  | exc : String → TResp
deriving DecidableEq, Repr

/-- The dict `api_call` returns (its `code` and `message` fields). -/
structure ZResult where
  code : Int
  message : String
deriving DecidableEq, Repr

/-- Full observable outcome of one `api_call`: result, backoff sleeps,
tokens used per attempt, final connector state. -/
structure CallTrace where
  result : ZResult
  sleeps : List Nat
  usedTokens : List String
  final : ConnSt
deriving DecidableEq, Repr

/-- `get_access_token`: reuse the cached token, else refresh (take the
next token from the supply); `none` models `get_access_token` printing
the credentials error / failing to refresh and returning `None`. -/
def getAccessToken (s : ConnSt) : Option (String × ConnSt) :=
  match s.accessToken with
  | some t => some (t, s)
  | none =>
    match s.tokenSupply with
    | [] => none
    | t :: rest => some (t, ⟨some t, rest⟩)

/-- `"invalid_token" in str(result.get("message", ""))`. -/
def strContains (needle hay : String) : Bool :=
  hay.toList.tails.any (fun t => needle.toList.isPrefixOf t)

/-- Is this JSON `code` one of Zoho's payload rate-limit codes
(`result.get("code") in (429, 57, 58)`)? -/
def isZohoRateCode (c : Int) : Bool :=
  c = 429 || c = 57 || c = 58

/-- Is this JSON body the auth-expired signal
(`result.get("code") == 14 or "invalid_token" in message`)? -/
def isAuthExpired (c : Int) (msg : String) : Bool :=
  c = 14 || strContains "invalid_token" msg

/-- The `for attempt in range(1, MAX_RETRIES + 1)` loop of `api_call`.
`fuel` is the number of iterations left; `attempt` the 1-based counter.
Falling off the loop returns the max-retries message, exactly as the
source's final `return`. -/
def apiCallLoop (resp : Nat → TResp) (maxR : Nat) :
    Nat → Nat → ConnSt → List Nat → List String → CallTrace
  | 0, _, st, sleeps, used =>
    ⟨⟨1, "Max retries exceeded — Zoho rate limit"⟩, sleeps, used, st⟩
  | fuel + 1, attempt, st, sleeps, used =>
    match getAccessToken st with
    | none => ⟨⟨1, "Auth Failed"⟩, sleeps, used, st⟩
    | some (tok, st1) =>
      match resp attempt with
      | .status429 =>
        apiCallLoop resp maxR fuel (attempt + 1) st1
          (sleeps ++ [RATE_LIMIT_BACKOFF * attempt]) (used ++ [tok])
      | .timeout =>
        if attempt < maxR then
          apiCallLoop resp maxR fuel (attempt + 1) st1
            (sleeps ++ [RATE_LIMIT_BACKOFF]) (used ++ [tok])
        else ⟨⟨1, "Request timed out"⟩, sleeps, used ++ [tok], st1⟩
      | .exc m => ⟨⟨1, m⟩, sleeps, used ++ [tok], st1⟩
      | .json c msg =>
        if isZohoRateCode c then
          apiCallLoop resp maxR fuel (attempt + 1) st1
            (sleeps ++ [RATE_LIMIT_BACKOFF * attempt]) (used ++ [tok])
        else if isAuthExpired c msg then
          apiCallLoop resp maxR fuel (attempt + 1) ⟨none, st1.tokenSupply⟩
            sleeps (used ++ [tok])
        else ⟨⟨c, msg⟩, sleeps, used ++ [tok], st1⟩

/-- `api_call(method, endpoint, ...)` for a recognized method: the retry
loop starting at attempt 1 with the full budget. -/
def api_call (resp : Nat → TResp) (st : ConnSt) : CallTrace :=
  apiCallLoop resp MAX_RETRIES MAX_RETRIES 1 st [] []

/-- A transport interaction that `api_call` treats as a rate-limit
signal: HTTP 429, or a JSON body whose code is 429/57/58. -/
def isRateSignal : TResp → Bool
  | .status429 => true
  | .json c _ => isZohoRateCode c
  | .timeout => false
  | .exc _ => false

/-! ### One-step unfolding lemmas for the retry loop -/

theorem apiCallLoop_rate_step (resp : Nat → TResp) (maxR fuel attempt : Nat)
    (st st1 : ConnSt) (tok : String) (sleeps : List Nat) (used : List String)
    (hT : getAccessToken st = some (tok, st1)) (hr : isRateSignal (resp attempt) = true) :
    apiCallLoop resp maxR (fuel + 1) attempt st sleeps used =
      apiCallLoop resp maxR fuel (attempt + 1) st1
        (sleeps ++ [RATE_LIMIT_BACKOFF * attempt]) (used ++ [tok]) := by
  cases hresp : resp attempt with
  | status429 => simp [apiCallLoop, hT, hresp]
  | json c m =>
    rw [hresp] at hr
    simp [apiCallLoop, hT, hresp, isRateSignal] at hr ⊢
    simp [hr]
  | timeout => rw [hresp] at hr; simp [isRateSignal] at hr
  | exc m => rw [hresp] at hr; simp [isRateSignal] at hr

theorem apiCallLoop_auth_step (resp : Nat → TResp) (maxR fuel attempt : Nat)
    (st st1 : ConnSt) (tok : String) (sleeps : List Nat) (used : List String)
    (c : Int) (msg : String)
    (hT : getAccessToken st = some (tok, st1)) (hresp : resp attempt = .json c msg)
    (hc : isZohoRateCode c = false) (ha : isAuthExpired c msg = true) :
    apiCallLoop resp maxR (fuel + 1) attempt st sleeps used =
      apiCallLoop resp maxR fuel (attempt + 1) ⟨none, st1.tokenSupply⟩
        sleeps (used ++ [tok]) := by
  simp [apiCallLoop, hT, hresp, hc, ha]

theorem apiCallLoop_return_step (resp : Nat → TResp) (maxR fuel attempt : Nat)
    (st st1 : ConnSt) (tok : String) (sleeps : List Nat) (used : List String)
    (c : Int) (msg : String)
    (hT : getAccessToken st = some (tok, st1)) (hresp : resp attempt = .json c msg)
    (hc : isZohoRateCode c = false) (ha : isAuthExpired c msg = false) :
    apiCallLoop resp maxR (fuel + 1) attempt st sleeps used =
      ⟨⟨c, msg⟩, sleeps, used ++ [tok], st1⟩ := by
  simp [apiCallLoop, hT, hresp, hc, ha]

/-! ### Python string primitives

`str.lower`, `str.strip` and the `\r`/`\n` removals are embedded as
list-of-characters operations (so the kernel can evaluate them on
concrete inputs).  `Char.toLower` models `str.lower` on the basic-latin
range, which covers every name the claims involve. -/

/-- `s.lower()`. -/
def pyLower (s : String) : String := ⟨s.data.map Char.toLower⟩

/-- The whitespace characters `str.strip()` removes. -/
def isPyWs (c : Char) : Bool :=
  c == ' ' || c == '\t' || c == '\n' || c == '\r' || c == '\x0b' || c == '\x0c'

/-- `s.strip()`. -/
def pyStrip (s : String) : String :=
  ⟨((s.data.dropWhile isPyWs).reverse.dropWhile isPyWs).reverse⟩

/-- `s.replace("\r", "").replace("\n", "")`. -/
def stripCRLF (s : String) : String :=
  ⟨s.data.filter (fun c => !(c == '\r' || c == '\n'))⟩

/-- The resolver key: `contact_name.lower().strip()`. -/
def normKey (s : String) : String := pyStrip (pyLower s)

/-! ## Entity resolver

`find_or_create_contact(token, contact_map, contact_name)` appears
identically in bills/bills_backend.py and invoice/invoice.py; the
sales-order flow uses `find_customer_in_zoho` plus the acceptance logic
inlined in `create_zoho_sales_order` (sales_order/sale_backend.py).
The similarity metric is `fuzz.ratio` from the external fuzzywuzzy
library (not part of this repository); per the spec it is an
edit-distance-based ratio on a 0–100 scale.  The embedding therefore
takes the metric as a parameter `ratio : String → String → Nat`; every
theorem below holds for an arbitrary metric, hence in particular for
`fuzz.ratio`.  The cached directory (a Python insertion-ordered dict)
is an association list with unique keys; mutation returns the new list. -/

/-- A cached Zoho contact record (the fields the resolver reads). -/
structure ZContact where
  contact_name : String
  contact_id : String
deriving DecidableEq, Repr

/-- The directory: normalized name → contact. -/
abbrev Directory := List (String × ZContact)

/-- Which branch of the resolver produced the outcome. -/
inductive MatchDecision where
  | exact : MatchDecision
  | fuzzyAccepted : MatchDecision
  | notFound : MatchDecision
deriving DecidableEq, Repr

/-- The observable outcome of one resolution. -/
structure MatchOutcome where
  decision : MatchDecision
  matched : Option ZContact
  score : Nat
deriving DecidableEq, Repr

/-- The fuzzy-scan loop: `for existing_name, contact_data in
contact_map.items(): score = fuzz.ratio(key, existing_name); if score >
best_score: ...` starting from `best_score = 0, best_match = None`. -/
def bestFuzzy (ratio : String → String → Nat) (key : String) (entries : Directory) :
    Nat × Option ZContact :=
  entries.foldl
    (fun best e => if ratio key e.1 > best.1 then (ratio key e.1, some e.2) else best)
    (0, none)

/-- `find_or_create_contact` (bills_backend.py / invoice.py): exact
lookup of `contact_name.lower().strip()`, else fuzzy scan; a best score
`>= 75` accepts AND pins `contact_map[contact_key] = best_match`
(returned as the updated directory); otherwise no match is returned and
the directory is untouched — the function never creates a contact. -/
def find_or_create_contact (ratio : String → String → Nat) (cmap : Directory)
    (contact_name : String) : MatchOutcome × Directory :=
  let key := normKey contact_name
  match cmap.lookup key with
  | some c => (⟨.exact, some c, 100⟩, cmap)
  | none =>
    let (bs, bm) := bestFuzzy ratio key cmap
    match bm with
    | some c =>
      if bs ≥ 75 then (⟨.fuzzyAccepted, some c, bs⟩, cmap ++ [(key, c)])
      else (⟨.notFound, none, bs⟩, cmap)
    | none => (⟨.notFound, none, bs⟩, cmap)

/-- `find_customer_in_zoho(customer_name, contact_map)`
(sale_backend.py): exact lookup of `customer_name.lower()` (no strip)
scores 100; otherwise the fuzzy scan's best candidate and score are
returned unconditionally. -/
def find_customer_in_zoho (ratio : String → String → Nat) (contact_map : Directory)
    (customer_name : String) : Option ZContact × Nat :=
  let key := pyLower customer_name
  match contact_map.lookup key with
  | some c => (some c, 100)
  | none =>
    let (bs, bm) := bestFuzzy ratio key contact_map
    (bm, bs)

/-- Outcome of the customer-resolution step of `create_zoho_sales_order`. -/
inductive SaleCustomerStep where
  | accepted : ZContact → Nat → SaleCustomerStep
  | failedNotFound : SaleCustomerStep
  | failedLowConfidence : Nat → SaleCustomerStep
deriving DecidableEq, Repr

/-- The acceptance logic of `create_zoho_sales_order` (sale_backend.py):
no candidate fails; score 100 proceeds as an exact match; a score below
80 fails with a low-confidence error; otherwise the fuzzy match
proceeds. -/
def sale_customer_decision (ratio : String → String → Nat) (contact_map : Directory)
    (customer_name : String) : SaleCustomerStep :=
  match find_customer_in_zoho ratio contact_map customer_name with
  | (none, _) => .failedNotFound
  | (some c, s) =>
    if s = 100 then .accepted c s
    else if s < 80 then .failedLowConfidence s
    else .accepted c s

/-! ## Batch synchronizer (`sync_ledgers_to_zoho`, ledgers/ledgers_backend.py)

We embed the selected-ledgers path (records supplied by the caller, no
type filter): the function pre-loads the existing Zoho contacts into a
lowercased-name-keyed dict, then runs the main loop.  The pre-loaded
directory is a parameter (it is the result of the paginated GETs), and
the outcome of each `POST /contacts` is given by an oracle
`createResp : ZPayload → CreateResp` standing for `zoho.api_call`
(which always returns a dict, never raises).  A record is a row from
SQLite / Tally; `l["name"]` is indexed directly — a missing or `None`
name raises in Python, which the embedding surfaces as `Except.error`. -/

/-- A record handed to the sync loop (`dict.get` fields are `Option`). -/
structure SyncRecord where
  name : Option String
  rtype : Option String := none
  address : Option String := none
  state : Option String := none
  pincode : Option String := none
  country : Option String := none
  email : Option String := none
  phone : Option String := none
deriving DecidableEq, Repr

/-- `clean(val) = (val or "").replace("\r","").replace("\n","").strip()`. -/
def cleanS (v : Option String) : String :=
  pyStrip (stripCRLF (v.getD ""))

/-- The JSON payload built for `POST /contacts` (the fields the loop
fills; both addresses receive the same cleaned components). -/
structure ZPayload where
  contact_name : String
  company_name : String
  contact_type : String
  email : String
  phone : String
  mobile : String
  addr_address : String
  addr_city : String
  addr_state : String
  addr_zip : String
  addr_country : String
  has_contact_persons : Bool
deriving DecidableEq, Repr

/-- What `zoho.api_call("POST", "/contacts", payload)` returned:
`code`, `message`, and the `contact` object stored into the local map
on success. -/
structure CreateResp where
  code : Int
  message : String
  contact : ZContact
deriving DecidableEq, Repr

/-- Running stats: `{"created": 0, "updated": 0, "failed": 0, "skipped": 0}`.
`updated` exists in the source dict but the loop never increments it. -/
structure SyncStats where
  created : Nat
  updated : Nat
  failed : Nat
  skipped : Nat
deriving DecidableEq, Repr

/-- The structure `sync_ledgers_to_zoho` returns on completion. -/
structure SyncOut where
  stats : SyncStats
  failed_contacts : List (String × String)
  final_contacts : Directory
deriving DecidableEq, Repr

/-- The payload construction for one record, given its cleaned name. -/
def buildPayload (l : SyncRecord) (name ctype : String) : ZPayload :=
  let email := cleanS l.email
  let phone := cleanS l.phone
  { contact_name := name
    company_name := name
    contact_type := ctype
    email := email
    phone := phone
    mobile := phone
    addr_address := cleanS l.address
    addr_city := ""
    addr_state := cleanS l.state
    addr_zip := cleanS l.pincode
    addr_country := cleanS l.country
    has_contact_persons := email ≠ "" || phone ≠ "" }

/-- One iteration of the main sync loop: skip when the lowercased name
is already in the local map, otherwise POST and count the outcome.
`Except.error` is a raised Python exception (only a missing name). -/
def syncStep (createResp : ZPayload → CreateResp)
    (acc : SyncStats × List (String × String) × Directory) (l : SyncRecord) :
    Except String (SyncStats × List (String × String) × Directory) :=
  let (stats, failedNames, existing) := acc
  match l.name with
  | none => .error "KeyError: name"
  | some nm0 =>
    let name := pyStrip (stripCRLF nm0)
    let nameKey := pyLower name
    let ctype := if l.rtype = some "vendor" then "vendor" else "customer"
    match existing.lookup nameKey with
    | some _ => .ok ({ stats with skipped := stats.skipped + 1 }, failedNames, existing)
    | none =>
      let res := createResp (buildPayload l name ctype)
      if res.code = 0 then
        .ok ({ stats with created := stats.created + 1 }, failedNames,
             existing ++ [(nameKey, res.contact)])
      else
        .ok ({ stats with failed := stats.failed + 1 },
             failedNames ++ [(name, res.message)], existing)

/-- The sequential fold over the record list; a raised exception
aborts the whole batch (there is no per-record try/except in the loop). -/
def syncFold (createResp : ZPayload → CreateResp)
    (records : List SyncRecord)
    (acc : SyncStats × List (String × String) × Directory) :
    Except String (SyncStats × List (String × String) × Directory) :=
  match records with
  | [] => .ok acc
  | l :: rest => do
    let acc1 ← syncStep createResp acc l
    syncFold createResp rest acc1

/-- `sync_ledgers_to_zoho(selected_ledgers, None)` with the pre-loaded
contact directory `existing`: the main loop from fresh stats. -/
def sync_ledgers_to_zoho (records : List SyncRecord) (existing : Directory)
    (createResp : ZPayload → CreateResp) : Except String SyncOut := do
  let (stats, failedNames, final) ←
    syncFold createResp records (⟨0, 0, 0, 0⟩, [], existing)
  return ⟨stats, failedNames, final⟩

/-! ## Characterization of the classifier loop -/

theorem roleOf_cases (sd sc : List String) (p : String) :
    roleOf sd sc p = "customer" ∨ roleOf sd sc p = "vendor" ∨ roleOf sd sc p = "other" := by
  unfold roleOf
  by_cases h1 : p ∈ sd
  · simp [h1]
  · by_cases h2 : p ∈ sc <;> simp [h1, h2]

/-- `classifyLoop` computes the tagged list, the three buckets as
filters of it, and one database row per ledger when the DB is there. -/
theorem classifyLoop_spec (sd sc : List String) (hasDb : Bool) (ledgers : List LedgerIn) :
    classifyLoop sd sc hasDb ledgers =
      (ledgers.map (fun l => ⟨l, roleOf sd sc l.parent⟩),
       (ledgers.map (fun l => (⟨l, roleOf sd sc l.parent⟩ : TypedLedger))).filter
         (fun tl => decide (tl.ltype = "customer")),
       (ledgers.map (fun l => (⟨l, roleOf sd sc l.parent⟩ : TypedLedger))).filter
         (fun tl => decide (tl.ltype = "vendor")),
       (ledgers.map (fun l => (⟨l, roleOf sd sc l.parent⟩ : TypedLedger))).filter
         (fun tl => decide (tl.ltype = "other")),
       if hasDb then ledgers.map (fun l => toDbRow l (roleOf sd sc l.parent)) else []) := by
  induction ledgers with
  | nil => simp [classifyLoop]
  | cons l rest ih =>
    rw [classifyLoop, ih]
    rcases roleOf_cases sd sc l.parent with ht | ht | ht <;>
      simp [ht, List.filter_cons] <;>
      by_cases hdb : hasDb <;> simp [hdb]

/-- Disjoint three-way bucket count. -/
theorem length_filter_three (L : List TypedLedger)
    (h : ∀ tl ∈ L, tl.ltype = "customer" ∨ tl.ltype = "vendor" ∨ tl.ltype = "other") :
    (L.filter (fun tl => decide (tl.ltype = "customer"))).length +
    (L.filter (fun tl => decide (tl.ltype = "vendor"))).length +
    (L.filter (fun tl => decide (tl.ltype = "other"))).length = L.length := by
  induction L with
  | nil => simp
  | cons tl rest ih =>
    have hrest := ih (fun x hx => h x (List.mem_cons_of_mem _ hx))
    rcases h tl (List.mem_cons_self _ _) with ht | ht | ht <;>
      simp [List.filter_cons, ht] <;> omega

/-- Full characterization of `analyze_ledgers`. -/
theorem analyze_ledgers_eq (hasDb : Bool) (ledgers : List LedgerIn) (groups : List GroupRec) :
    analyze_ledgers hasDb ledgers groups =
      { ledgers := ledgers.map (fun l => ⟨l, roleOf (sdSet groups) (scSet groups) l.parent⟩)
        sundry_debtors :=
          (ledgers.map (fun l => (⟨l, roleOf (sdSet groups) (scSet groups) l.parent⟩ :
            TypedLedger))).filter (fun tl => decide (tl.ltype = "customer"))
        sundry_creditors :=
          (ledgers.map (fun l => (⟨l, roleOf (sdSet groups) (scSet groups) l.parent⟩ :
            TypedLedger))).filter (fun tl => decide (tl.ltype = "vendor"))
        other_ledgers :=
          (ledgers.map (fun l => (⟨l, roleOf (sdSet groups) (scSet groups) l.parent⟩ :
            TypedLedger))).filter (fun tl => decide (tl.ltype = "other"))
        dbInit := hasDb
        dbLog :=
          if hasDb then ledgers.map (fun l => toDbRow l (roleOf (sdSet groups) (scSet groups) l.parent))
          else [] } := by
  simp only [analyze_ledgers, classifyLoop_spec]

/-! ## Claim C10 — `analyze_ledgers` partitions its input -/

/-- C10: for every input list of ledgers and groups, `analyze_ledgers`
assigns each ledger exactly one role among customer/vendor/other, the
three buckets are exactly the role-filtered tagged list (so each tagged
ledger lands in precisely one bucket), and the bucket sizes sum to the
input length. -/
theorem C10_partition (hasDb : Bool) (ledgers : List LedgerIn) (groups : List GroupRec) :
    ((analyze_ledgers hasDb ledgers groups).ledgers.length = ledgers.length) ∧
    ((analyze_ledgers hasDb ledgers groups).sundry_debtors =
      (analyze_ledgers hasDb ledgers groups).ledgers.filter
        (fun tl => decide (tl.ltype = "customer"))) ∧
    ((analyze_ledgers hasDb ledgers groups).sundry_creditors =
      (analyze_ledgers hasDb ledgers groups).ledgers.filter
        (fun tl => decide (tl.ltype = "vendor"))) ∧
    ((analyze_ledgers hasDb ledgers groups).other_ledgers =
      (analyze_ledgers hasDb ledgers groups).ledgers.filter
        (fun tl => decide (tl.ltype = "other"))) ∧
    ((analyze_ledgers hasDb ledgers groups).sundry_debtors.length +
      (analyze_ledgers hasDb ledgers groups).sundry_creditors.length +
      (analyze_ledgers hasDb ledgers groups).other_ledgers.length = ledgers.length) ∧
    ((analyze_ledgers hasDb ledgers groups).ledgers.all
      (fun tl => tl.ltype == "customer" || tl.ltype == "vendor" || tl.ltype == "other") = true) := by
  rw [analyze_ledgers_eq]
  have hmem : ∀ tl ∈ ledgers.map (fun l => (⟨l, roleOf (sdSet groups) (scSet groups) l.parent⟩ :
      TypedLedger)), tl.ltype = "customer" ∨ tl.ltype = "vendor" ∨ tl.ltype = "other" := by
    intro tl htl
    obtain ⟨l, _, rfl⟩ := List.mem_map.mp htl
    exact roleOf_cases _ _ _
  refine ⟨List.length_map _ _, rfl, rfl, rfl, ?_, ?_⟩
  · rw [length_filter_three _ hmem, List.length_map]
  · rw [List.all_eq_true]
    intro tl htl
    rcases hmem tl htl with ht | ht | ht <;> simp [ht]

/-! ## Claim C7 — receivables closure checked first -/

/-- C7: a ledger whose parent lies in both the receivables closure
(`sdSet`) and the payables closure (`scSet`) is classified customer —
receivables is checked first; a parent only in the payables closure is
vendor; a parent in neither is other. -/
theorem C7_receivables_first (hasDb : Bool) (groups : List GroupRec) (ledgers : List LedgerIn)
    (tl : TypedLedger) (htl : tl ∈ (analyze_ledgers hasDb ledgers groups).ledgers) :
    (tl.led.parent ∈ sdSet groups ∧ tl.led.parent ∈ scSet groups → tl.ltype = "customer") ∧
    (tl.led.parent ∉ sdSet groups ∧ tl.led.parent ∈ scSet groups → tl.ltype = "vendor") ∧
    (tl.led.parent ∉ sdSet groups ∧ tl.led.parent ∉ scSet groups → tl.ltype = "other") := by
  rw [analyze_ledgers_eq] at htl
  obtain ⟨l, _, rfl⟩ := List.mem_map.mp htl
  refine ⟨fun h => ?_, fun h => ?_, fun h => ?_⟩ <;>
    simp only [roleOf] <;> simp [h.1, h.2]

/-- The malformed-hierarchy input for the C7 witness: the group `Dual`
is recorded as a child of both reserved roots. -/
def c7Groups : List GroupRec :=
  [{ name := "Dual", parent := "Sundry Debtors" }, { name := "Dual", parent := "Sundry Creditors" }]

/-- A ledger parented under the doubly-linked group. -/
def c7Ledger : LedgerIn := { name := "Both Ways Traders", parent := "Dual" }

theorem C7_receivables_first_witness :
    ((⟨c7Ledger, "customer"⟩ : TypedLedger) ∈ (analyze_ledgers false [c7Ledger] c7Groups).ledgers) ∧
    ("Dual" ∈ sdSet c7Groups ∧ "Dual" ∈ scSet c7Groups) ∧
    (⟨c7Ledger, "customer"⟩ : TypedLedger).ltype = "customer" :=
  ⟨by decide, ⟨by decide, by decide⟩,
    (C7_receivables_first false c7Groups [c7Ledger] ⟨c7Ledger, "customer"⟩ (by decide)).1
      ⟨by decide, by decide⟩⟩

/-! ## Claim C1 — `analyze_ledgers` is deterministic but not pure -/

/-- A concrete ledger for the C1 counterexample. -/
def c1Ledger : LedgerIn := { name := "Acme Traders", parent := "Sundry Debtors" }

/-- C1 counterexample: with the database manager available,
`analyze_ledgers` initializes the database and writes a row for the
ledger — state mutated beyond the return value, so the call is not free
of side effects. -/
theorem C1_counterexample :
    (analyze_ledgers true [c1Ledger] []).dbInit = true ∧
    (analyze_ledgers true [c1Ledger] []).dbLog ≠ [] := by
  decide

/-- C1 amended: `analyze_ledgers` is deterministic (it is a pure
function of its arguments in this embedding) and its classification
output does not depend on database availability, but when
`database_manager` is importable it initializes the database and issues
one `insert_or_update_ledger` call per input ledger; only without the
database manager is the database left untouched. -/
theorem C1_amended_effects (ledgers : List LedgerIn) (groups : List GroupRec) :
    ((analyze_ledgers false ledgers groups).dbInit = false ∧
     (analyze_ledgers false ledgers groups).dbLog = []) ∧
    ((analyze_ledgers true ledgers groups).dbInit = true ∧
     (analyze_ledgers true ledgers groups).dbLog.length = ledgers.length) ∧
    ((analyze_ledgers true ledgers groups).ledgers =
      (analyze_ledgers false ledgers groups).ledgers ∧
     (analyze_ledgers true ledgers groups).sundry_debtors =
      (analyze_ledgers false ledgers groups).sundry_debtors ∧
     (analyze_ledgers true ledgers groups).sundry_creditors =
      (analyze_ledgers false ledgers groups).sundry_creditors ∧
     (analyze_ledgers true ledgers groups).other_ledgers =
      (analyze_ledgers false ledgers groups).other_ledgers) := by
  rw [analyze_ledgers_eq, analyze_ledgers_eq]
  exact ⟨⟨rfl, rfl⟩, ⟨rfl, by simp⟩, rfl, rfl, rfl, rfl⟩

/-! ## Claim C4 — closure of a root, unknown-root handling -/

/-- The spec's example edge set: A→root, B→A, C→root. -/
def c4Groups : List GroupRec :=
  [{ name := "A", parent := "root" }, { name := "B", parent := "A" },
   { name := "C", parent := "root" }]

/-- The children index built from the example edges. -/
def c4Map : CMap := build_group_hierarchy c4Groups

/-- C4 counterexample: the ledgers-backend `get_all_descendants` does
NOT return the root: for a root appearing in no edge it returns the
empty list (not the singleton), and on the example edge set the root is
absent from the result. -/
theorem C4_counterexample :
    get_all_descendants "X" c4Map = [] ∧
    "root" ∉ get_all_descendants "root" c4Map := by
  decide

/-- C4 amended: the journel-backend variant of `get_all_descendants`
behaves exactly as claimed — for every edge index and root it returns
precisely the root plus every transitive descendant (the set of nodes
reachable along parent→child edges), so it contains the root, returns
`{root}` for an unknown root, and on the example edges returns
`{root, A, B, C}` — while the ledgers-backend variant returns only the
proper descendants (`[A, C, B]` on the example, `[]` for an unknown
root); its callers form the closure by uniting the root back in, and
that union is again exactly the reachable set. -/
theorem C4_amended_closure :
    (∀ (m : CMap) (g x : String), x ∈ get_all_descendants_j g m ↔ Reaches m g x) ∧
    (∀ (m : CMap) (g x : String),
      x ∈ insert g (get_all_descendants g m).toFinset ↔ Reaches m g x) ∧
    (∀ (m : CMap) (g : String), lookupC g m = [] → get_all_descendants_j g m = {g}) ∧
    (∀ (m : CMap) (g : String), g ∈ get_all_descendants_j g m) ∧
    (∀ (m : CMap) (g : String), lookupC g m = [] → get_all_descendants g m = []) ∧
    get_all_descendants_j "root" c4Map = {"root", "A", "B", "C"} ∧
    get_all_descendants_j "X" c4Map = {"X"} ∧
    get_all_descendants "root" c4Map = ["A", "C", "B"] ∧
    insert "root" (get_all_descendants "root" c4Map).toFinset =
      ({"root", "A", "B", "C"} : Finset String) := by
  refine ⟨get_all_descendants_j_iff, get_all_descendants_closure_iff,
    ?_, ?_, ?_, by decide, by decide, by decide, by decide⟩
  · intro m g h
    unfold get_all_descendants_j
    rw [gadJ_succ]
    simp [h]
  · intro m g
    unfold get_all_descendants_j
    rw [gadJ_succ]
    simp only [List.not_mem_nil, if_false]
    exact gadJ_foldl_fst_subset _ m _ _ (Finset.mem_singleton_self g)
  · intro m g h
    unfold get_all_descendants
    rw [gadFuel_succ]
    simp [h, gadList_nil]

theorem C4_amended_closure_witness :
    (lookupC "Z" c4Map = [] ∧ get_all_descendants_j "Z" c4Map = {"Z"} ∧
      get_all_descendants "Z" c4Map = []) ∧
    "root" ∈ get_all_descendants_j "root" c4Map ∧
    Reaches c4Map "root" "B" :=
  ⟨⟨by decide, (C4_amended_closure.2.2.1) c4Map "Z" (by decide),
    (C4_amended_closure.2.2.2.2.1) c4Map "Z" (by decide)⟩,
   (C4_amended_closure.2.2.2.1) c4Map "root",
   ((C4_amended_closure.1) c4Map "root" "B").mp (by decide)⟩

/-! ## Claim C9 — cycle-safe termination -/

/-- A hierarchy with a cycle reachable from the root: root→A→root. -/
def c9CycleGroups : List GroupRec :=
  [{ name := "A", parent := "root" }, { name := "root", parent := "A" }]

/-- The children index of the cyclic hierarchy. -/
def c9CycleMap : CMap := build_group_hierarchy c9CycleGroups

/-- C9: the traversal terminates on every index: beyond the computable
fuel bound `meas m [] + 1` the result no longer depends on the fuel
(the recursion depth is bounded, it never loops); a node already in
the visited set contributes nothing further (returns empty at once);
every node the traversal ever collects is genuinely reachable from the
root, so a back-edge never smuggles in anything extra; and on the
concrete cyclic index root→A→root the closure computation stops at the
back-edge, returning exactly `[A, root]` with no repetition. -/
theorem C9_termination (m : CMap) (g : String) (n : Nat) (h : meas m [] + 1 ≤ n) :
    (gadFuel n g m []).1 = get_all_descendants g m ∧
    (∀ (fuel : Nat) (g' : String) (v : List String), g' ∈ v →
      gadFuel (fuel + 1) g' m v = ([], v)) ∧
    (∀ (m' : CMap) (g' x : String), x ∈ get_all_descendants g' m' → Reaches m' g' x) ∧
    get_all_descendants "root" c9CycleMap = ["A", "root"] := by
  refine ⟨?_, ?_, ?_, by decide⟩
  · unfold get_all_descendants
    rw [gadFuel_stable_ge m g n h]
  · intro fuel g' v hg'
    rw [gadFuel_succ]
    simp [hg']
  · intro m' g' x hx
    exact (get_all_descendants_closure_iff m' g' x).mp
      (Finset.mem_insert_of_mem (List.mem_toFinset.mpr hx))

theorem C9_termination_witness :
    (meas c9CycleMap [] + 1 ≤ 10) ∧
    (gadFuel 10 "root" c9CycleMap []).1 = get_all_descendants "root" c9CycleMap :=
  ⟨by decide, (C9_termination c9CycleMap "root" 10 (by decide)).1⟩

/-! ## Claim C8 — rate-limit retry with linear backoff -/

/-- C8: with a valid token, two rate-limit signals followed by a normal
JSON body make `api_call` succeed on the third attempt, sleeping
`RATE_LIMIT_BACKOFF * 1` then `RATE_LIMIT_BACKOFF * 2` seconds between
the attempts (linearly increasing); and when all `MAX_RETRIES = 3`
attempts are rate-limited, it returns the typed max-retries failure
value instead of raising. -/
theorem C8_rate_limit_retry :
    (∀ (resp : Nat → TResp) (sup : List String) (t : String) (c : Int) (msg : String),
      isRateSignal (resp 1) = true → isRateSignal (resp 2) = true →
      resp 3 = .json c msg → isZohoRateCode c = false → isAuthExpired c msg = false →
      api_call resp ⟨some t, sup⟩ =
        ⟨⟨c, msg⟩, [RATE_LIMIT_BACKOFF * 1, RATE_LIMIT_BACKOFF * 2], [t, t, t],
         ⟨some t, sup⟩⟩) ∧
    (∀ (resp : Nat → TResp) (sup : List String) (t : String),
      isRateSignal (resp 1) = true → isRateSignal (resp 2) = true →
      isRateSignal (resp 3) = true →
      (api_call resp ⟨some t, sup⟩).result =
        ⟨1, "Max retries exceeded — Zoho rate limit"⟩) := by
  constructor
  · intro resp sup t c msg h1 h2 h3 hc ha
    have hT : getAccessToken ⟨some t, sup⟩ = some (t, ⟨some t, sup⟩) := rfl
    have s1 := apiCallLoop_rate_step resp 3 2 1 ⟨some t, sup⟩ ⟨some t, sup⟩ t [] [] hT h1
    have s2 := apiCallLoop_rate_step resp 3 1 2 ⟨some t, sup⟩ ⟨some t, sup⟩ t
      ([] ++ [RATE_LIMIT_BACKOFF * 1]) ([] ++ [t]) hT h2
    have s3 := apiCallLoop_return_step resp 3 0 3 ⟨some t, sup⟩ ⟨some t, sup⟩ t
      (([] ++ [RATE_LIMIT_BACKOFF * 1]) ++ [RATE_LIMIT_BACKOFF * 2]) (([] ++ [t]) ++ [t])
      c msg hT h3 hc ha
    exact (s1.trans (s2.trans s3)).trans (by simp)
  · intro resp sup t h1 h2 h3
    have hT : getAccessToken ⟨some t, sup⟩ = some (t, ⟨some t, sup⟩) := rfl
    have s1 := apiCallLoop_rate_step resp 3 2 1 ⟨some t, sup⟩ ⟨some t, sup⟩ t [] [] hT h1
    have s2 := apiCallLoop_rate_step resp 3 1 2 ⟨some t, sup⟩ ⟨some t, sup⟩ t
      ([] ++ [RATE_LIMIT_BACKOFF * 1]) ([] ++ [t]) hT h2
    have s3 := apiCallLoop_rate_step resp 3 0 3 ⟨some t, sup⟩ ⟨some t, sup⟩ t
      (([] ++ [RATE_LIMIT_BACKOFF * 1]) ++ [RATE_LIMIT_BACKOFF * 2]) (([] ++ [t]) ++ [t]) hT h3
    have : api_call resp ⟨some t, sup⟩ =
        apiCallLoop resp 3 0 4 ⟨some t, sup⟩
          ((([] ++ [RATE_LIMIT_BACKOFF * 1]) ++ [RATE_LIMIT_BACKOFF * 2]) ++
            [RATE_LIMIT_BACKOFF * 3]) ((([] ++ [t]) ++ [t]) ++ [t]) :=
      s1.trans (s2.trans s3)
    rw [this]
    rfl

/-- The mock transport of the C8 witness: 429 twice, then success. -/
def c8wResp : Nat → TResp := fun a => if a = 3 then .json 0 "ok" else .status429

theorem C8_rate_limit_retry_witness :
    (isRateSignal (c8wResp 1) = true ∧ isRateSignal (c8wResp 2) = true ∧
     c8wResp 3 = .json 0 "ok" ∧ isZohoRateCode 0 = false ∧ isAuthExpired 0 "ok" = false) ∧
    api_call c8wResp ⟨some "t", []⟩ =
      ⟨⟨0, "ok"⟩, [RATE_LIMIT_BACKOFF * 1, RATE_LIMIT_BACKOFF * 2], ["t", "t", "t"],
       ⟨some "t", []⟩⟩ ∧
    (api_call (fun _ => TResp.status429) ⟨some "t", []⟩).result =
      ⟨1, "Max retries exceeded — Zoho rate limit"⟩ :=
  ⟨⟨by decide, by decide, by decide, by decide, by decide⟩,
   C8_rate_limit_retry.1 c8wResp [] "t" 0 "ok" (by decide) (by decide) (by decide)
     (by decide) (by decide),
   C8_rate_limit_retry.2 (fun _ => TResp.status429) [] "t" (by decide) (by decide) (by decide)⟩

/-! ## Claim C2 — auth-expired handling mid-batch -/

/-- The C2 counterexample script: auth-expired at attempt 1, rate-limit
signals at attempts 2 and 3, a successful body waiting at attempt 4. -/
def c2Resp : Nat → TResp := fun a =>
  if a = 1 then .json 14 "expired" else if a = 4 then .json 0 "created" else .status429

/-- The C2 counterexample initial state: a valid token and plenty of
fresh tokens available. -/
def c2St : ConnSt := ⟨some "t0", ["t1", "t2"]⟩

/-- C2 counterexample: after the auth-expired retry only two rate-limit
retries were left — the loop performed the two backoff sleeps and then
returned the exhausted-budget failure without ever issuing attempt 4,
where success was waiting.  Had the auth retry not been counted against
the rate-limit retry budget, the full budget of `MAX_RETRIES = 3`
rate-limited attempts would have remained and the call would have
returned `⟨0, "created"⟩`. -/
theorem C2_counterexample :
    (api_call c2Resp c2St).result = ⟨1, "Max retries exceeded — Zoho rate limit"⟩ ∧
    (api_call c2Resp c2St).sleeps = [RATE_LIMIT_BACKOFF * 2, RATE_LIMIT_BACKOFF * 3] ∧
    c2Resp 4 = .json 0 "created" ∧
    (api_call c2Resp c2St).result ≠ ⟨0, "created"⟩ := by
  refine ⟨by decide, by decide, by decide, by decide⟩

/-- C2 amended: on an auth-expired signal the client does invalidate
the stored token and retry with a freshly refreshed one (the next token
the refresh endpoint yields), but the auth retry consumes an attempt of
the same `MAX_RETRIES = 3` loop budget shared with rate-limit retries:
after one auth retry only two rate-limited attempts remain before the
typed max-retries failure. -/
theorem C2_amended_auth_retry :
    (∀ (resp : Nat → TResp) (t0 t1 : String) (sup : List String) (c1 : Int) (m1 : String)
        (c : Int) (msg : String),
      resp 1 = .json c1 m1 → isZohoRateCode c1 = false → isAuthExpired c1 m1 = true →
      resp 2 = .json c msg → isZohoRateCode c = false → isAuthExpired c msg = false →
      api_call resp ⟨some t0, t1 :: sup⟩ =
        ⟨⟨c, msg⟩, [], [t0, t1], ⟨some t1, sup⟩⟩) ∧
    (∀ (resp : Nat → TResp) (t0 t1 : String) (sup : List String) (c1 : Int) (m1 : String),
      resp 1 = .json c1 m1 → isZohoRateCode c1 = false → isAuthExpired c1 m1 = true →
      isRateSignal (resp 2) = true → isRateSignal (resp 3) = true →
      (api_call resp ⟨some t0, t1 :: sup⟩).result =
        ⟨1, "Max retries exceeded — Zoho rate limit"⟩) := by
  constructor
  · intro resp t0 t1 sup c1 m1 c msg h1 hc1 ha1 h2 hc ha
    have hT0 : getAccessToken ⟨some t0, t1 :: sup⟩ = some (t0, ⟨some t0, t1 :: sup⟩) := rfl
    have hT1 : getAccessToken ⟨none, t1 :: sup⟩ = some (t1, ⟨some t1, sup⟩) := rfl
    have s1 := apiCallLoop_auth_step resp 3 2 1 ⟨some t0, t1 :: sup⟩ ⟨some t0, t1 :: sup⟩ t0
      [] [] c1 m1 hT0 h1 hc1 ha1
    have s2 := apiCallLoop_return_step resp 3 1 2 ⟨none, t1 :: sup⟩ ⟨some t1, sup⟩ t1
      [] ([] ++ [t0]) c msg hT1 h2 hc ha
    exact (s1.trans s2).trans (by simp)
  · intro resp t0 t1 sup c1 m1 h1 hc1 ha1 h2 h3
    have hT0 : getAccessToken ⟨some t0, t1 :: sup⟩ = some (t0, ⟨some t0, t1 :: sup⟩) := rfl
    have hT1 : getAccessToken ⟨none, t1 :: sup⟩ = some (t1, ⟨some t1, sup⟩) := rfl
    have s1 := apiCallLoop_auth_step resp 3 2 1 ⟨some t0, t1 :: sup⟩ ⟨some t0, t1 :: sup⟩ t0
      [] [] c1 m1 hT0 h1 hc1 ha1
    have s2 := apiCallLoop_rate_step resp 3 1 2 ⟨none, t1 :: sup⟩ ⟨some t1, sup⟩ t1
      [] ([] ++ [t0]) hT1 h2
    have s3 := apiCallLoop_rate_step resp 3 0 3 ⟨some t1, sup⟩ ⟨some t1, sup⟩ t1
      ([] ++ [RATE_LIMIT_BACKOFF * 2]) (([] ++ [t0]) ++ [t1])
      (by rfl) h3
    have : api_call resp ⟨some t0, t1 :: sup⟩ =
        apiCallLoop resp 3 0 4 ⟨some t1, sup⟩
          (([] ++ [RATE_LIMIT_BACKOFF * 2]) ++ [RATE_LIMIT_BACKOFF * 3])
          ((([] ++ [t0]) ++ [t1]) ++ [t1]) :=
      s1.trans (s2.trans s3)
    rw [this]
    rfl

/-- The C2 witness script: auth-expired at attempt 1, success at 2. -/
def c2wResp : Nat → TResp := fun a =>
  if a = 1 then .json 14 "expired" else .json 0 "done"

theorem C2_amended_auth_retry_witness :
    (c2wResp 1 = .json 14 "expired" ∧ isZohoRateCode 14 = false ∧
     isAuthExpired 14 "expired" = true ∧ c2wResp 2 = .json 0 "done" ∧
     isZohoRateCode 0 = false ∧ isAuthExpired 0 "done" = false) ∧
    api_call c2wResp ⟨some "t0", ["t1"]⟩ =
      ⟨⟨0, "done"⟩, [], ["t0", "t1"], ⟨some "t1", []⟩⟩ :=
  ⟨⟨by decide, by decide, by decide, by decide, by decide, by decide⟩,
   C2_amended_auth_retry.1 c2wResp "t0" "t1" [] 14 "expired" 0 "done"
     (by decide) (by decide) (by decide) (by decide) (by decide) (by decide)⟩

/-! ## Resolver lemmas -/

theorem lookup_append_of_none {β : Type} (l1 l2 : List (String × β)) (k : String)
    (h : l1.lookup k = none) : (l1 ++ l2).lookup k = l2.lookup k := by
  induction l1 with
  | nil => rfl
  | cons p rest ih =>
    obtain ⟨k1, v1⟩ := p
    simp only [List.lookup] at h ⊢
    cases hbeq : (k == k1) with
    | true =>
      simp only [hbeq] at h
      exact absurd h (Option.some_ne_none v1)
    | false =>
      simp only [hbeq] at h
      simp only [List.cons_append, List.lookup, hbeq]
      exact ih h

/-- The fuzzy scan can only report a positive best score together with
a candidate. -/
theorem bestFuzzy_isSome_of_pos (ratio : String → String → Nat) (key : String)
    (entries : Directory) (h : 0 < (bestFuzzy ratio key entries).1) :
    (bestFuzzy ratio key entries).2.isSome = true := by
  unfold bestFuzzy at *
  have hgen : ∀ (es : List (String × ZContact)) (b : Nat × Option ZContact),
      (0 < b.1 → b.2.isSome = true) →
      (0 < (es.foldl
        (fun best e => if ratio key e.1 > best.1 then (ratio key e.1, some e.2) else best)
        b).1 →
      (es.foldl
        (fun best e => if ratio key e.1 > best.1 then (ratio key e.1, some e.2) else best)
        b).2.isSome = true) := by
    intro es
    induction es with
    | nil => intro b hb; exact hb
    | cons e es ih =>
      intro b hb
      rw [List.foldl_cons]
      apply ih
      by_cases hcmp : ratio key e.1 > b.1
      · simp [hcmp]
      · simpa [hcmp] using hb
  exact hgen entries (0, none) (by intro h0; omega) h

/-- Branch-level description of `find_or_create_contact`: exact hit. -/
theorem foc_exact (ratio : String → String → Nat) (cmap : Directory) (nm : String)
    (c : ZContact) (h : cmap.lookup (normKey nm) = some c) :
    find_or_create_contact ratio cmap nm = (⟨.exact, some c, 100⟩, cmap) := by
  simp only [find_or_create_contact]
  rw [h]

/-- Branch-level description of `find_or_create_contact`: fuzzy accept
pins the normalized key. -/
theorem foc_fuzzy (ratio : String → String → Nat) (cmap : Directory) (nm : String)
    (c : ZContact) (bs : Nat) (h : cmap.lookup (normKey nm) = none)
    (hb : bestFuzzy ratio (normKey nm) cmap = (bs, some c)) (h75 : 75 ≤ bs) :
    find_or_create_contact ratio cmap nm =
      (⟨.fuzzyAccepted, some c, bs⟩, cmap ++ [(normKey nm, c)]) := by
  simp only [find_or_create_contact]
  rw [h, hb]
  simp [h75]

/-- Branch-level description of `find_or_create_contact`: miss. -/
theorem foc_notFound (ratio : String → String → Nat) (cmap : Directory) (nm : String)
    (h : cmap.lookup (normKey nm) = none)
    (hlow : (bestFuzzy ratio (normKey nm) cmap).1 < 75) :
    find_or_create_contact ratio cmap nm =
      (⟨.notFound, none, (bestFuzzy ratio (normKey nm) cmap).1⟩, cmap) := by
  simp only [find_or_create_contact]
  rw [h]
  cases hb : bestFuzzy ratio (normKey nm) cmap with
  | mk bs bm =>
    cases bm with
    | none => simp
    | some c =>
      rw [hb] at hlow
      simp only at hlow
      simp [Nat.not_le.mpr hlow]

/-! ## Claim C5 — fuzzy accept memoizes into the directory -/

/-- C5: whenever a resolution of name X returns the fuzzy-accepted
decision, the directory comes back extended with the normalized key of
X mapped to the matched entity, and resolving X again against the
returned directory takes the exact path, returning the same entity with
decision exact and confidence 100. -/
theorem C5_fuzzy_then_exact (ratio : String → String → Nat) (cmap : Directory)
    (nm : String)
    (hdec : (find_or_create_contact ratio cmap nm).1.decision = .fuzzyAccepted) :
    ∃ c : ZContact,
      (find_or_create_contact ratio cmap nm).1.matched = some c ∧
      (find_or_create_contact ratio cmap nm).2 = cmap ++ [(normKey nm, c)] ∧
      (find_or_create_contact ratio cmap nm).2.lookup (normKey nm) = some c ∧
      find_or_create_contact ratio (find_or_create_contact ratio cmap nm).2 nm =
        (⟨.exact, some c, 100⟩, (find_or_create_contact ratio cmap nm).2) := by
  cases hlk : cmap.lookup (normKey nm) with
  | some c0 => rw [foc_exact ratio cmap nm c0 hlk] at hdec; simp at hdec
  | none =>
    cases hb : bestFuzzy ratio (normKey nm) cmap with
    | mk bs bm =>
      cases bm with
      | none =>
        have hlow : (bestFuzzy ratio (normKey nm) cmap).1 < 75 := by
          by_contra hge
          have := bestFuzzy_isSome_of_pos ratio (normKey nm) cmap (by omega)
          rw [hb] at this
          simp at this
        rw [foc_notFound ratio cmap nm hlk hlow] at hdec
        simp at hdec
      | some c =>
        by_cases h75 : 75 ≤ bs
        · have hfz := foc_fuzzy ratio cmap nm c bs hlk hb h75
          refine ⟨c, ?_, ?_, ?_, ?_⟩
          · rw [hfz]
          · rw [hfz]
          · rw [hfz]
            rw [lookup_append_of_none cmap _ _ hlk]
            simp [List.lookup]
          · have hlk2 : ((find_or_create_contact ratio cmap nm).2).lookup
                (normKey nm) = some c := by
              rw [hfz]
              rw [lookup_append_of_none cmap _ _ hlk]
              simp [List.lookup]
            rw [foc_exact ratio _ nm c hlk2]
        · have hlow : (bestFuzzy ratio (normKey nm) cmap).1 < 75 := by
            rw [hb]; omega
          rw [foc_notFound ratio cmap nm hlk hlow] at hdec
          simp at hdec

/-- The C5 witness scoring function (standing for a `fuzz.ratio`
outcome of 80 between the two names involved). -/
def c5Ratio : String → String → Nat := fun _ _ => 80

/-- The C5 witness directory. -/
def c5Map : Directory := [("acme ltd", ⟨"Acme Ltd", "id1"⟩)]

theorem C5_fuzzy_then_exact_witness :
    ((find_or_create_contact c5Ratio c5Map "Acme Industries").1.decision =
      MatchDecision.fuzzyAccepted) ∧
    ∃ c : ZContact,
      (find_or_create_contact c5Ratio c5Map "Acme Industries").1.matched = some c ∧
      (find_or_create_contact c5Ratio c5Map "Acme Industries").2 =
        c5Map ++ [(normKey "Acme Industries", c)] ∧
      (find_or_create_contact c5Ratio c5Map "Acme Industries").2.lookup
        (normKey "Acme Industries") = some c ∧
      find_or_create_contact c5Ratio
          (find_or_create_contact c5Ratio c5Map "Acme Industries").2 "Acme Industries" =
        (⟨.exact, some c, 100⟩, (find_or_create_contact c5Ratio c5Map "Acme Industries").2) :=
  ⟨by decide, C5_fuzzy_then_exact c5Ratio c5Map "Acme Industries" (by decide)⟩

/-! ## Claim C6 — fuzzy-acceptance thresholds, no auto-create -/

/-- The C6 scoring function: a fuzzy score of 77 between any two names
(a value `fuzz.ratio` can produce; it lies in `[75, 80)`). -/
def c6Ratio : String → String → Nat := fun _ _ => 77

/-- The C6 directory: one vendor entry. -/
def c6Map : Directory := [("acme ltd", ⟨"Acme Ltd", "id1"⟩)]

/-- C6 counterexample: at a best fuzzy score of 77 (≥ 75) the
bills/invoice resolver accepts, but the sales-order resolver — one of
the implementations the claim covers — rejects it as low-confidence:
acceptance at "score ≥ 75" does not hold across the resolver code. -/
theorem C6_counterexample :
    75 ≤ 77 ∧
    (find_or_create_contact c6Ratio c6Map "Acme Industries").1.decision =
      MatchDecision.fuzzyAccepted ∧
    sale_customer_decision c6Ratio c6Map "Acme Industries" =
      SaleCustomerStep.failedLowConfidence 77 := by
  refine ⟨by decide, by decide, by decide⟩

/-- C6 amended: with no exact directory hit, the bills/invoice resolver
accepts the best fuzzy candidate exactly when its score is at least 75,
and below 75 it returns not-found with no match and the directory
untouched (it never creates a contact — creation policy stays with the
caller); the sales-order path is stricter: it proceeds exactly when a
candidate exists and its score is at least 80 (100 counting as exact),
failing for scores in `[75, 80)`. -/
theorem C6_amended_thresholds :
    (∀ (ratio : String → String → Nat) (cmap : Directory) (nm : String),
      cmap.lookup (normKey nm) = none →
      (((find_or_create_contact ratio cmap nm).1.decision = MatchDecision.fuzzyAccepted ↔
         75 ≤ (bestFuzzy ratio (normKey nm) cmap).1) ∧
       ((bestFuzzy ratio (normKey nm) cmap).1 < 75 →
         (find_or_create_contact ratio cmap nm).1.decision = MatchDecision.notFound ∧
         (find_or_create_contact ratio cmap nm).1.matched = none ∧
         (find_or_create_contact ratio cmap nm).2 = cmap))) ∧
    (∀ (ratio : String → String → Nat) (cmap : Directory) (nm : String),
      cmap.lookup (pyLower nm) = none →
      ((∃ c s, sale_customer_decision ratio cmap nm = SaleCustomerStep.accepted c s) ↔
        ((bestFuzzy ratio (pyLower nm) cmap).2.isSome = true ∧
         80 ≤ (bestFuzzy ratio (pyLower nm) cmap).1))) := by
  constructor
  · intro ratio cmap nm hlk
    refine ⟨⟨?_, ?_⟩, ?_⟩
    · intro hdec
      cases hb : bestFuzzy ratio (normKey nm) cmap with
      | mk bs bm =>
        cases bm with
        | none =>
          have hnone : find_or_create_contact ratio cmap nm =
              (⟨MatchDecision.notFound, none, bs⟩, cmap) := by
            simp only [find_or_create_contact]
            rw [hlk, hb]
          rw [hnone] at hdec
          simp at hdec
        | some c =>
          by_cases h75 : 75 ≤ bs
          · exact h75
          · have hlow : (bestFuzzy ratio (normKey nm) cmap).1 < 75 := by rw [hb]; omega
            rw [foc_notFound ratio cmap nm hlk hlow] at hdec
            simp at hdec
    · intro h75
      have hpos : 0 < (bestFuzzy ratio (normKey nm) cmap).1 := by omega
      have hsome := bestFuzzy_isSome_of_pos ratio (normKey nm) cmap hpos
      cases hb : bestFuzzy ratio (normKey nm) cmap with
      | mk bs bm =>
        rw [hb] at hsome h75
        cases bm with
        | none => simp at hsome
        | some c =>
          rw [foc_fuzzy ratio cmap nm c bs hlk hb h75]
    · intro hlow
      rw [foc_notFound ratio cmap nm hlk hlow]
      exact ⟨rfl, rfl, rfl⟩
  · intro ratio cmap nm hlk
    have heq : find_customer_in_zoho ratio cmap nm =
        ((bestFuzzy ratio (pyLower nm) cmap).2, (bestFuzzy ratio (pyLower nm) cmap).1) := by
      simp only [find_customer_in_zoho]
      rw [hlk]
    cases hb : bestFuzzy ratio (pyLower nm) cmap with
    | mk bs bm =>
      rw [hb] at heq
      constructor
      · rintro ⟨c, s, hacc⟩
        unfold sale_customer_decision at hacc
        rw [heq] at hacc
        cases bm with
        | none => simp at hacc
        | some c0 =>
          simp only at hacc
          by_cases h100 : bs = 100
          · exact ⟨rfl, by omega⟩
          · by_cases h80 : bs < 80
            · rw [if_neg h100, if_pos h80] at hacc
              simp at hacc
            · exact ⟨rfl, by omega⟩
      · rintro ⟨hsome, h80⟩
        cases bm with
        | none => simp at hsome
        | some c =>
          unfold sale_customer_decision
          rw [heq]
          simp only
          by_cases h100 : bs = 100
          · rw [if_pos h100]; exact ⟨c, bs, rfl⟩
          · rw [if_neg h100, if_neg (by omega : ¬ bs < 80)]
            exact ⟨c, bs, rfl⟩

theorem C6_amended_thresholds_witness :
    (c6Map.lookup (normKey "Acme Industries") = none ∧
      ((find_or_create_contact c6Ratio c6Map "Acme Industries").1.decision =
        MatchDecision.fuzzyAccepted ↔
        75 ≤ (bestFuzzy c6Ratio (normKey "Acme Industries") c6Map).1)) ∧
    ¬(∃ c s, sale_customer_decision c6Ratio c6Map "Acme Industries" =
        SaleCustomerStep.accepted c s) :=
  ⟨⟨by decide, (C6_amended_thresholds.1 c6Ratio c6Map "Acme Industries" (by decide)).1⟩,
   fun h => by
     have hx := (C6_amended_thresholds.2 c6Ratio c6Map "Acme Industries" (by decide)).mp h
     exact absurd hx.2 (by decide)⟩

/-! ## Claim C3 — the batch contract of `sync_ledgers_to_zoho` -/

/-- Total number of records already accounted for. -/
def statsSum (st : SyncStats) : Nat :=
  st.created + st.updated + st.skipped + st.failed

/-- A named record always steps to `ok`, accounting for exactly one
more record and never touching the `updated` counter. -/
theorem syncStep_ok (createResp : ZPayload → CreateResp)
    (acc : SyncStats × List (String × String) × Directory) (r : SyncRecord)
    (nm0 : String) (h : r.name = some nm0) :
    ∃ acc', syncStep createResp acc r = Except.ok acc' ∧
      statsSum acc'.1 = statsSum acc.1 + 1 ∧ acc'.1.updated = acc.1.updated := by
  obtain ⟨stats, fnames, existing⟩ := acc
  simp only [syncStep, h]
  cases hlk : existing.lookup (pyLower (pyStrip (stripCRLF nm0))) with
  | some c =>
    simp only [hlk]
    exact ⟨_, rfl, by simp only [statsSum]; omega, rfl⟩
  | none =>
    simp only [hlk]
    by_cases hcode :
        (createResp (buildPayload r (pyStrip (stripCRLF nm0))
          (if r.rtype = some "vendor" then "vendor" else "customer"))).code = 0
    · rw [if_pos hcode]
      exact ⟨_, rfl, by simp only [statsSum]; omega, rfl⟩
    · rw [if_neg hcode]
      exact ⟨_, rfl, by simp only [statsSum]; omega, rfl⟩

/-- The fold over named records never raises and accounts for every
record. -/
theorem syncFold_ok (createResp : ZPayload → CreateResp) (records : List SyncRecord) :
    ∀ acc, (∀ r ∈ records, r.name.isSome = true) →
    ∃ fin, syncFold createResp records acc = Except.ok fin ∧
      statsSum fin.1 = statsSum acc.1 + records.length ∧
      fin.1.updated = acc.1.updated := by
  induction records with
  | nil => intro acc _; exact ⟨acc, rfl, by simp, rfl⟩
  | cons r rest ih =>
    intro acc h
    obtain ⟨nm0, hnm⟩ := Option.isSome_iff_exists.mp (h r (List.mem_cons_self _ _))
    obtain ⟨acc1, hstep, hsum1, hupd1⟩ := syncStep_ok createResp acc r nm0 hnm
    obtain ⟨fin, hfold, hsum2, hupd2⟩ := ih acc1 (fun x hx => h x (List.mem_cons_of_mem _ hx))
    refine ⟨fin, ?_, by rw [hsum2, hsum1]; simp; omega, by rw [hupd2, hupd1]⟩
    simp only [syncFold, hstep]
    exact hfold

/-- The C3 create oracle: the target rejects the record named
`Bad Co` and accepts everything else. -/
def c3Resp : ZPayload → CreateResp := fun p =>
  if p.contact_name = "Bad Co" then ⟨1, "Name invalid", ⟨"", ""⟩⟩
  else ⟨0, "", ⟨p.contact_name, "zid"⟩⟩

/-- A batch whose second record lacks the `name` field entirely. -/
def c3BadRecords : List SyncRecord :=
  [{ name := some "Good A" }, { name := none }]

/-- C3 counterexample: the sync loop has no per-record try/except, so a
record without a name raises (`l["name"]` is a `KeyError`) and aborts
the whole batch instead of producing an N-outcome result with that
record marked failed. -/
theorem C3_counterexample :
    sync_ledgers_to_zoho c3BadRecords [] c3Resp = Except.error "KeyError: name" := rfl

/-- C3 amended: for batches whose records all carry a name — so for
every malformed record whose failure shows up as a rejected
`POST /contacts` response — the synchronizer never raises: it returns a
stats structure accounting for exactly N records (`updated` stays 0), a
rejected record k is counted failed and appended to the error list with
its cleaned name and the response message, the directory is left
unchanged by the failure, and the batch continues with the remaining
records exactly as if the accounting had been done up front. -/
theorem C3_amended_batch_contract :
    (∀ (createResp : ZPayload → CreateResp) (records : List SyncRecord)
        (existing : Directory),
      (∀ r ∈ records, r.name.isSome = true) →
      ∃ out, sync_ledgers_to_zoho records existing createResp = Except.ok out ∧
        out.stats.created + out.stats.updated + out.stats.skipped + out.stats.failed =
          records.length ∧
        out.stats.updated = 0) ∧
    (∀ (createResp : ZPayload → CreateResp) (stats : SyncStats)
        (fnames : List (String × String)) (existing : Directory)
        (k : SyncRecord) (rest : List SyncRecord) (nm0 : String),
      k.name = some nm0 →
      existing.lookup (pyLower (pyStrip (stripCRLF nm0))) = none →
      (createResp (buildPayload k (pyStrip (stripCRLF nm0))
        (if k.rtype = some "vendor" then "vendor" else "customer"))).code ≠ 0 →
      syncFold createResp (k :: rest) (stats, fnames, existing) =
        syncFold createResp rest
          ({ stats with failed := stats.failed + 1 },
           fnames ++ [(pyStrip (stripCRLF nm0),
             (createResp (buildPayload k (pyStrip (stripCRLF nm0))
               (if k.rtype = some "vendor" then "vendor" else "customer"))).message)],
           existing)) := by
  constructor
  · intro createResp records existing h
    obtain ⟨fin, hfold, hsum, hupd⟩ :=
      syncFold_ok createResp records (⟨0, 0, 0, 0⟩, [], existing) h
    obtain ⟨stats, fnames, final⟩ := fin
    refine ⟨⟨stats, fnames, final⟩, ?_, ?_, ?_⟩
    · simp only [sync_ledgers_to_zoho, hfold]
      rfl
    · simpa [statsSum] using hsum
    · simpa using hupd
  · intro createResp stats fnames existing k rest nm0 hnm hlk hcode
    have hstep : syncStep createResp (stats, fnames, existing) k =
        Except.ok ({ stats with failed := stats.failed + 1 },
          fnames ++ [(pyStrip (stripCRLF nm0),
            (createResp (buildPayload k (pyStrip (stripCRLF nm0))
              (if k.rtype = some "vendor" then "vendor" else "customer"))).message)],
          existing) := by
      simp only [syncStep, hnm]
      simp only [hlk]
      rw [if_neg hcode]
    simp only [syncFold, hstep]
    rfl

/-- The C3 witness batch: two accepted records around one the target
rejects. -/
def c3Records : List SyncRecord :=
  [{ name := some "Good A", rtype := some "customer" },
   { name := some "Bad Co", rtype := some "vendor" },
   { name := some "Good B" }]

theorem C3_amended_batch_contract_witness :
    (∀ r ∈ c3Records, r.name.isSome = true) ∧
    (∃ out, sync_ledgers_to_zoho c3Records [] c3Resp = Except.ok out ∧
      out.stats.created + out.stats.updated + out.stats.skipped + out.stats.failed =
        c3Records.length ∧
      out.stats.updated = 0) :=
  ⟨by decide, C3_amended_batch_contract.1 c3Resp c3Records [] (by decide)⟩

end TallyZoho
